import Mathlib

/-!
The request parser of diy-server (`server.go`)

A shallow embedding of `parseRequest` (server.go, lines 23-79), of
`handleConnection` (lines 81-150) and of the Go library functions they call,
followed by theorems about them.

Modelling conventions
* A Go `string` / `[]byte` is a list of bytes (`Str`), each byte a natural number;
  a number above 255 never occurs on the wire and is treated as a byte that is
  neither ASCII nor part of any UTF-8 encoding.
* A connection is the finite sequence of bytes the peer sends before closing;
  the buffered reader is the list of bytes not yet consumed.
* `map[string]string` is an association list with at most one entry per key.
* A `nil` slice and an empty slice are both the empty list (the program never
  tells them apart).
* `int` is 64 bits wide (`strconv.Atoi` rejects values outside that range).
* What the program takes from outside the connection is given by a `Process`:
  the command line (`os.Args`), the outcomes of `os.ReadFile` and
  `os.WriteFile`, and whether the runtime can allocate a buffer of a given size.
* `make([]byte, n)` panics for a negative `n` and for an `n` above the runtime's
  `maxAlloc`; below that it returns when the process obtains the memory and ends
  the process when it does not.  Both ways of ending are the outcome `panic`.
* `handleConnection` returns the sequence of its `conn.Write` calls; an index
  out of range panics.
-/

namespace DiyServer

/-! ## Strings -/

/-- A Go string or byte slice: a finite sequence of bytes. -/
abbrev Str := List Nat

/-- The bytes of an ASCII string literal. -/
def str (s : String) : Str := s.data.map Char.toNat

/-! ## `strings.TrimSpace`

`strings.TrimSpace` removes all leading and trailing white space, as defined by
Unicode (`unicode.IsSpace`), decoding the string as UTF-8.  A byte sequence is a
white-space rune exactly when it is the UTF-8 encoding of one of
U+0009..U+000D, U+0020, U+0085, U+00A0, U+1680, U+2000..U+200A, U+2028, U+2029,
U+202F, U+205F, U+3000; bytes that are not valid UTF-8 decode to U+FFFD, which
is not white space. -/

/-- The byte sequence `e` is the UTF-8 encoding of a code point for which
`unicode.IsSpace` holds. -/
def isSpaceEnc : Str → Bool
  | [a] => a == 9 || a == 10 || a == 11 || a == 12 || a == 13 || a == 32
  | [a, b] => a == 0xC2 && (b == 0x85 || b == 0xA0)
  | [a, b, c] =>
      (a == 0xE1 && b == 0x9A && c == 0x80) ||
      (a == 0xE2 && b == 0x80 &&
        ((decide (0x80 ≤ c) && decide (c ≤ 0x8A)) || c == 0xA8 || c == 0xA9 || c == 0xAF)) ||
      (a == 0xE2 && b == 0x81 && c == 0x9F) ||
      (a == 0xE3 && b == 0x80 && c == 0x80)
  | _ => false

/-- Width in bytes of the white-space rune `s` starts with, `0` when `s` does not
start with white space. -/
def spaceLen (s : Str) : Nat :=
  if isSpaceEnc (s.take 1) then 1
  else if isSpaceEnc (s.take 2) then 2
  else if isSpaceEnc (s.take 3) then 3
  else 0

/-- Width in bytes of the white-space rune the string ends with, given the
string reversed; `0` when it does not end with white space. -/
def spaceLenRev (r : Str) : Nat :=
  if isSpaceEnc (r.take 1).reverse then 1
  else if isSpaceEnc (r.take 2).reverse then 2
  else if isSpaceEnc (r.take 3).reverse then 3
  else 0

/-- Repeatedly drop the rune recognised by `w` from the front of `s`
(at most `fuel` times; `s.length` times is always enough). -/
def dropRunes (w : Str → Nat) : Nat → Str → Str
  | 0, s => s
  | fuel + 1, s => if w s = 0 then s else dropRunes w fuel (s.drop (w s))

/-- Remove leading white space (`strings.TrimLeftFunc(s, unicode.IsSpace)`). -/
def TrimLeft (s : Str) : Str := dropRunes spaceLen s.length s

/-- Remove trailing white space (`strings.TrimRightFunc(s, unicode.IsSpace)`). -/
def TrimRight (s : Str) : Str := (dropRunes spaceLenRev s.length s.reverse).reverse

/-- Go `strings.TrimSpace`: leading white space is removed first, then trailing
white space. -/
def TrimSpace (s : Str) : Str := TrimRight (TrimLeft s)

/-! ## `strings.Split`, `strings.SplitN`, `bufio.Reader.ReadString` -/

/-- Cut `s` around the first occurrence of the byte `sep` (as `strings.Cut`):
the text before it and the text after it, or `none` when `sep` does not occur. -/
def cut : Str → Nat → Option (Str × Str)
  | [], _ => none
  | c :: t, sep =>
    if c = sep then some ([], t)
    else match cut t sep with
      | none => none
      | some (a, b) => some (c :: a, b)

/-- Go `strings.Split(s, sep)` for a one-byte separator: all substrings between
occurrences of `sep`; one more field than there are separators. -/
def Split : Str → Nat → List Str
  | [], _ => [[]]
  | c :: t, sep =>
    if c = sep then [] :: Split t sep
    else match Split t sep with
      | [] => [[c]]
      | h :: r => (c :: h) :: r

/-- Go `strings.SplitN(s, sep, n)` for a one-byte separator and `n ≥ 0`: at most
`n` substrings, the last one being the unsplit remainder. -/
def SplitN (s : Str) (sep : Nat) : Nat → List Str
  | 0 => []
  | 1 => [s]
  | n + 2 =>
    match cut s sep with
    | none => [s]
    | some (a, b) => a :: SplitN b sep (n + 1)

/-- The buffered reader over the connection: the bytes not yet consumed. -/
abbrev Reader := List Nat

/-- Go `bufio.Reader.ReadString(delim)`: the bytes up to and including the first
`delim`, and the reader after them; `none` (an error, `io.EOF`) when the stream
ends before a `delim`. -/
def ReadString (reader : Reader) (delim : Nat) : Option (Str × Reader) :=
  match cut reader delim with
  | none => none
  | some (a, b) => some (a ++ [delim], b)

/-- Go `io.ReadFull(reader, buf)` with `len(buf) = n`: exactly `n` bytes, or
`none` (`io.EOF` / `io.ErrUnexpectedEOF`) when fewer remain.  Reading zero
bytes succeeds without touching the stream. -/
def ReadFull (reader : Reader) (n : Nat) : Option (Str × Reader) :=
  if n ≤ reader.length then some (reader.take n, reader.drop n) else none

/-! ## `strconv.Atoi` and `strconv.Itoa` -/

/-- Value of a string of ASCII decimal digits read after the value `acc`;
`none` when a byte is not a digit. -/
def parseDigits : Str → Nat → Option Nat
  | [], acc => some acc
  | c :: t, acc => if 48 ≤ c ∧ c ≤ 57 then parseDigits t (acc * 10 + (c - 48)) else none

/-- Go `strconv.Atoi` with a 64-bit `int`: an optional sign `+` or `-`, then one
or more decimal digits, denoting a value in `[-2^63, 2^63 - 1]`; `none` for a
syntax or range error. -/
def Atoi (s : Str) : Option Int :=
  let neg : Bool := s.head? = some 45
  let ds : Str := if s.head? = some 43 ∨ s.head? = some 45 then s.tail else s
  if ds = [] then none
  else match parseDigits ds 0 with
    | none => none
    | some n =>
      if neg then (if n ≤ 2 ^ 63 then some (-(n : Int)) else none)
      else (if n < 2 ^ 63 then some (n : Int) else none)

/-- Decimal digits of `n` put in front of `acc` (`fuel` bounds the number of
digits; `n + 1` is always enough). -/
def itoaAux : Nat → Nat → Str → Str
  | 0, _, acc => acc
  | fuel + 1, n, acc =>
    if n < 10 then (n + 48) :: acc
    else itoaAux fuel (n / 10) ((n % 10 + 48) :: acc)

/-- Go `strconv.Itoa` on a non-negative integer: its decimal numeral. -/
def Itoa (n : Nat) : Str := itoaAux (n + 1) n []

/-! ## The request and the header map -/

/-- Go `map[string]string`: an association list with at most one entry per key. -/
abbrev HeaderMap := List (Str × Str)

/-- The assignment `m[k] = v`: any previous entry for `k` is replaced. -/
def HeaderMap.assign (m : HeaderMap) (k v : Str) : HeaderMap :=
  (k, v) :: m.filter (fun p => p.1 != k)

/-- The entry stored under exactly the key `k`, if there is one. -/
def HeaderMap.entry (m : HeaderMap) (k : Str) : Option Str :=
  match m with
  | [] => none
  | (k', v) :: t => if k' = k then some v else HeaderMap.entry t k

/-- The index expression `m[k]`: the stored value, or the empty string when the
key is absent. -/
def HeaderMap.index (m : HeaderMap) (k : Str) : Str :=
  match m.entry k with
  | some v => v
  | none => []

/-- The `Request` struct (server.go, lines 14-20). -/
structure Request where
  Method : Str
  Path : Str
  Version : Str
  Headers : HeaderMap
  Body : Str
  deriving DecidableEq

/-- The five `fmt.Errorf` results of `parseRequest`, by the place that returns them. -/
inductive ParseError
  | readRequestLine
  | invalidRequestLine
  | readHeaderLine
  | invalidContentLength
  | readBody
  deriving DecidableEq

/-- How a call of `parseRequest` ends: with a request, with an error, or without
a result, in a run-time panic or a fatal error of the runtime, which ends the
process. -/
inductive Outcome (α : Type)
  | ok (a : α)
  | error (e : ParseError)
  | panic
  deriving DecidableEq

/-! ## The process -/

/-- What the program takes from outside the connection: the command line of the
process (`os.Args`), the outcome of the file operations (`none` or `false`
standing for a returned error), and `Alloc n`, whether the runtime obtains the
memory for a buffer of `n` bytes. -/
structure Process where
  Args : List Str
  ReadFile : Str → Option Str
  WriteFile : Str → Str → Bool
  Alloc : Nat → Bool

/-- The largest size the Go runtime accepts for one allocation (`maxAlloc` in
`runtime/malloc.go`): `2^48` bytes on linux/amd64, the platform taken here. -/
def maxAlloc : Nat := 2 ^ 48

/-- Whether `make([]byte, len)` returns.  The runtime's `makeslice` panics
(`len out of range`) for a negative `len` and for one above `maxAlloc`; a buffer
of length 0 needs no memory; any other is returned when the process obtains the
memory and ends the process (`out of memory`) when it does not. -/
def makeslice (proc : Process) (len : Int) : Bool :=
  decide (0 ≤ len) && decide (len ≤ (maxAlloc : Int)) && (len == 0 || proc.Alloc len.toNat)

/-! ## `parseRequest` -/

/-- Lines 56-61: the trimmed, non-empty header line is split at its first colon;
with two parts the trimmed name is assigned the trimmed value, a line without a
colon leaves the map unchanged. -/
def storeHeader (headers : HeaderMap) (line : Str) : HeaderMap :=
  match SplitN line 58 2 with
  | [name, value] => headers.assign (TrimSpace name) (TrimSpace value)
  | _ => headers

/-- The header loop (lines 46-62).  `cur` holds the bytes `ReadString` has read
of the current line; at a newline the line is complete: it is trimmed, ends the
loop when empty and is stored otherwise.  The stream ending inside a line is
the read error of line 48 (`none`). -/
def headerLoop : Reader → Str → HeaderMap → Option (HeaderMap × Reader)
  | [], _, _ => none
  | c :: reader, cur, headers =>
    if c = 10 then
      let line := TrimSpace (cur ++ [10])
      if line = [] then some (headers, reader)
      else headerLoop reader [] (storeHeader headers line)
    else headerLoop reader (cur ++ [c]) headers

/-- Lines 64-78: for the method `POST` the `Content-Length` entry is converted
with `Atoi`, a buffer of that length is made (`make` not returning is the
outcome `panic`) and filled with `io.ReadFull`; any other method has no body. -/
def readBody (proc : Process) (method path version : Str) (headers : HeaderMap)
    (reader : Reader) : Outcome (Request × Reader) :=
  if method = str "POST" then
    match Atoi (headers.index (str "Content-Length")) with
    | none => .error .invalidContentLength
    | some contentLength =>
      if makeslice proc contentLength = false then .panic
      else match ReadFull reader contentLength.toNat with
        | none => .error .readBody
        | some (body, reader) =>
          .ok ({ Method := method, Path := path, Version := version,
                 Headers := headers, Body := body }, reader)
  else
    .ok ({ Method := method, Path := path, Version := version,
           Headers := headers, Body := [] }, reader)

/-- The body of `parseRequest` on the buffered reader; besides the request it
returns the bytes of the stream the parser has not consumed. -/
def parseRequestReader (proc : Process) (reader : Reader) : Outcome (Request × Reader) :=
  match ReadString reader 10 with
  | none => .error .readRequestLine
  | some (requestLine, reader) =>
    match Split (TrimSpace requestLine) 32 with
    | [method, path, version] =>
      match headerLoop reader [] [] with
      | none => .error .readHeaderLine
      | some (headers, reader) => readBody proc method path version headers reader
    | _ => .error .invalidRequestLine

/-- Go `parseRequest(conn)` (server.go, lines 23-79) on the bytes the
connection delivers, in the given process. -/
def parseRequest (proc : Process) (conn : List Nat) : Outcome Request :=
  match parseRequestReader proc conn with
  | .ok (req, _) => .ok req
  | .error e => .error e
  | .panic => .panic

/-! ## `handleConnection` -/

/-- Go `strings.HasPrefix(s, pre)`. -/
def HasPrefix (s pre : Str) : Bool := pre.isPrefixOf s

/-- Go `strings.TrimPrefix(s, pre)`: `s` without the leading `pre`, or `s` itself
when it does not start with `pre`. -/
def TrimPrefix (s pre : Str) : Str := if HasPrefix s pre then s.drop pre.length else s

/-- How a call of `handleConnection` ends: with the sequence of `conn.Write`
calls it has made, or in a run-time panic (which, not being recovered, ends the
process) before any write. -/
inductive Handled
  | written (writes : List Str)
  | panic
  deriving DecidableEq

/-- The `fmt.Sprintf` call of lines 100 and 110: status line, `Content-Type:
text/plain`, the `Content-Length` printed with `%d`, a blank line and the body
printed with `%s`. -/
def textPlain (contentLength : Nat) (body : Str) : Str :=
  str "HTTP/1.1 200 OK\r\nContent-Type: text/plain\r\nContent-Length: " ++ Itoa contentLength ++
    str "\r\n\r\n" ++ body

/-- Lines 142-149: `200 OK` for the path `/`, `404 Not Found` for any other. -/
def fallback (req : Request) : Handled :=
  if req.Path = str "/" then .written [str "HTTP/1.1 200 OK\r\n\r\n"]
  else .written [str "HTTP/1.1 404 Not Found\r\n\r\n"]

/-- Go `handleConnection(conn)` (server.go, lines 81-150) on the bytes the
connection delivers.  A panic of `parseRequest` propagates; the index
expressions `strings.Split(str, "/")[len - 1]` and `os.Args[2]` panic when the
index is out of range. -/
def handleConnection (proc : Process) (conn : List Nat) : Handled :=
  match parseRequest proc conn with
  | .panic => .panic
  | .error _ => .written [str "HTTP/1.1 400 Bad Request\r\n\r\n"]
  | .ok req =>
    if HasPrefix req.Path (str "/echo/") then
      match (Split req.Path 47).getLast? with
      | none => .panic
      | some lastParam => .written [textPlain lastParam.length lastParam]
    else if HasPrefix req.Path (str "/user-agent") then
      let userAgent := req.Headers.index (str "User-Agent")
      .written [textPlain userAgent.length userAgent]
    else if HasPrefix req.Path (str "/files/") then
      match proc.Args.get? 2 with
      | none => .panic
      | some directory =>
        let fileName := TrimPrefix req.Path (str "/files/")
        if req.Method = str "GET" then
          match proc.ReadFile (directory ++ fileName) with
          | none => .written [str "HTTP/1.1 404 Not Found\r\n\r\n"]
          | some data =>
            .written [str "HTTP/1.1 200 OK\r\nContent-Type: application/octet-stream\r\nContent-Length: "
              ++ Itoa data.length ++ str "\r\n\r\n" ++ data ++ str "\r\n\r\n"]
        else if req.Method = str "POST" then
          if proc.WriteFile (directory ++ fileName) req.Body then
            .written [str "HTTP/1.1 201 Created\r\n\r\n"]
          else .written [str "HTTP/1.1 500 Internal Server Error\r\n\r\n"]
        else fallback req
    else fallback req

/-! ## Inputs and expected results the properties are stated over -/

/-- A block of lines on the wire: every line followed by a newline byte. -/
def block (lines : List Str) : Str :=
  match lines with
  | [] => []
  | l :: ls => l ++ 10 :: block ls

/-- The string contains white space somewhere: the UTF-8 encoding of a
white-space code point starts at one of its positions. -/
def hasSpace : Str → Bool
  | [] => false
  | c :: t => spaceLen (c :: t) != 0 || hasSpace t

/-- The string has leading or trailing white space. -/
def edgeSpace (s : Str) : Bool := spaceLen s != 0 || spaceLenRev s.reverse != 0

/-- A request-line token: non-empty and free of white space. -/
def WellFormedToken (t : Str) : Prop := t ≠ [] ∧ hasSpace t = false

instance (t : Str) : Decidable (WellFormedToken t) := by
  unfold WellFormedToken
  infer_instance

/-- A header pair that can be written as `name: value`: no colon in the name, no
newline and no leading or trailing white space in the name or the value. -/
def WellFormedHeader (p : Str × Str) : Prop :=
  58 ∉ p.1 ∧ 10 ∉ p.1 ∧ 10 ∉ p.2 ∧ edgeSpace p.1 = false ∧ edgeSpace p.2 = false

instance (p : Str × Str) : Decidable (WellFormedHeader p) := by
  unfold WellFormedHeader
  infer_instance

/-- The header pair written as `name: value\r\n`. -/
def headerLine (p : Str × Str) : Str := p.1 ++ str ": " ++ p.2 ++ str "\r\n"

/-- All header pairs written one after the other. -/
def headerLines (pairs : List (Str × Str)) : Str :=
  match pairs with
  | [] => []
  | p :: ps => headerLine p ++ headerLines ps

/-- The request head on the wire: request line, header lines, blank line, all
terminated by `\r\n`. -/
def serialize (method path version : Str) (pairs : List (Str × Str)) : Str :=
  method ++ str " " ++ path ++ str " " ++ version ++ str "\r\n" ++ headerLines pairs ++
    str "\r\n"

/-- The map built from a list of pairs, a later pair replacing an earlier one of
the same name. -/
def mapOfPairs (pairs : List (Str × Str)) : HeaderMap :=
  pairs.foldl (fun m p => m.assign p.1 p.2) []

/-- Name and value of a header line, read off its text: the text before the first
colon and the text after it, both trimmed; `none` for a line without a colon. -/
def headerField (line : Str) : Option (Str × Str) :=
  match cut line 58 with
  | none => none
  | some (a, b) => some (TrimSpace a, TrimSpace b)

/-- The value of the last line of `lines` whose name is exactly `k`, if any. -/
def lastValue (lines : List Str) (k : Str) : Option Str :=
  match lines with
  | [] => none
  | l :: ls =>
    match lastValue ls k with
    | some v => some v
    | none =>
      match headerField l with
      | some (name, value) => if name = k then some value else none
      | none => none

/-- A base-10 integer numeral: an optional sign, then one or more decimal digits. -/
def isNumeral (s : Str) : Bool :=
  let ds : Str := if s.head? = some 43 ∨ s.head? = some 45 then s.tail else s
  !ds.isEmpty && ds.all (fun c => decide (48 ≤ c) && decide (c ≤ 57))

/-- A stream that consists of a first line, further lines, one more line
`blank` and the bytes `rest`, every line followed by a newline byte. -/
def stream (first : Str) (lines : List Str) (blank rest : Str) : Str :=
  first ++ 10 :: (block lines ++ (blank ++ 10 :: rest))

/-- Lines of a header block, newline excluded: none contains a newline, none is
empty after trimming. -/
def HeaderLines (lines : List Str) : Prop :=
  ∀ l ∈ lines, 10 ∉ l ∧ TrimSpace (l ++ [10]) ≠ []

instance (lines : List Str) : Decidable (HeaderLines lines) := by
  unfold HeaderLines
  infer_instance

/-- A line, newline excluded, that ends the header block: empty after trimming. -/
def BlankLine (blank : Str) : Prop := 10 ∉ blank ∧ TrimSpace (blank ++ [10]) = []

instance (blank : Str) : Decidable (BlankLine blank) := by
  unfold BlankLine
  infer_instance

/-- The map the header loop has built after reading the given lines. -/
def headersOf (lines : List Str) : HeaderMap :=
  lines.foldl (fun m l => storeHeader m (TrimSpace (l ++ [10]))) []

/-- The header pair written as `name: value\n`. -/
def headerLineLF (p : Str × Str) : Str := p.1 ++ str ": " ++ p.2 ++ str "\n"

/-- All header pairs written one after the other, every line ended by `\n`. -/
def headerLinesLF (pairs : List (Str × Str)) : Str :=
  match pairs with
  | [] => []
  | p :: ps => headerLineLF p ++ headerLinesLF ps

/-- The request head on the wire with every line ended by `\n` alone. -/
def serializeLF (method path version : Str) (pairs : List (Str × Str)) : Str :=
  method ++ str " " ++ path ++ str " " ++ version ++ str "\n" ++ headerLinesLF pairs ++
    str "\n"

/-- The status lines a response may start with. -/
def statusLines : List Str :=
  [str "HTTP/1.1 200 OK", str "HTTP/1.1 201 Created", str "HTTP/1.1 404 Not Found",
   str "HTTP/1.1 500 Internal Server Error", str "HTTP/1.1 400 Bad Request"]

/-- The response starts with the given status line, ended by `\r\n`. -/
def hasStatus (response status : Str) : Bool := (status ++ str "\r\n").isPrefixOf response

/-- A process started without arguments, in which no file can be read or written
and every allocation succeeds. -/
def bareProcess : Process := ⟨[], fun _ => none, fun _ _ => false, fun _ => true⟩

/-! # Theorems -/

/-! ## Lemmas: dropping runes -/

theorem dropRunes_nil (w : Str → Nat) (fuel : Nat) : dropRunes w fuel [] = [] := by
  induction fuel with
  | zero => rfl
  | succ n ih => simp [dropRunes, ih]

theorem dropRunes_fuel (w : Str → Nat) :
    ∀ (f1 f2 : Nat) (s : Str), s.length ≤ f1 → s.length ≤ f2 →
      dropRunes w f1 s = dropRunes w f2 s := by
  intro f1
  induction f1 with
  | zero =>
    intro f2 s h1 _
    have hs : s = [] := List.length_eq_zero.mp (Nat.le_zero.mp h1)
    subst hs
    simp [dropRunes_nil]
  | succ n ih =>
    intro f2 s h1 h2
    cases f2 with
    | zero =>
      have hs : s = [] := List.length_eq_zero.mp (Nat.le_zero.mp h2)
      subst hs
      simp [dropRunes_nil]
    | succ m =>
      simp only [dropRunes]
      by_cases hw : w s = 0
      · simp [hw]
      · simp only [hw, if_false]
        apply ih
        · simp only [List.length_drop]; omega
        · simp only [List.length_drop]; omega

/-- One unfolding of the trimming loop, independent of the fuel. -/
theorem dropRunes_step (w : Str → Nat) (s : Str) :
    dropRunes w s.length s =
      if w s = 0 then s else dropRunes w (s.drop (w s)).length (s.drop (w s)) := by
  cases s with
  | nil => simp [dropRunes_nil]
  | cons a t =>
    simp only [List.length_cons, dropRunes]
    by_cases hw : w (a :: t) = 0
    · simp [hw]
    · simp only [hw, if_false]
      apply dropRunes_fuel
      · simp only [List.length_drop, List.length_cons]; omega
      · exact Nat.le_refl _

theorem dropRunes_stable (w : Str → Nat) (hnil : w [] = 0) :
    ∀ (fuel : Nat) (s : Str), s.length ≤ fuel → w (dropRunes w fuel s) = 0 := by
  intro fuel
  induction fuel with
  | zero =>
    intro s h
    have hs : s = [] := List.length_eq_zero.mp (Nat.le_zero.mp h)
    subst hs
    simpa [dropRunes] using hnil
  | succ n ih =>
    intro s h
    simp only [dropRunes]
    by_cases hw : w s = 0
    · simp [hw]
    · simp only [hw, if_false]
      apply ih
      cases s with
      | nil => simp
      | cons a t => simp only [List.length_drop, List.length_cons] at h ⊢; omega

theorem dropRunes_suffix (w : Str → Nat) :
    ∀ (fuel : Nat) (s : Str), dropRunes w fuel s <:+ s := by
  intro fuel
  induction fuel with
  | zero => intro s; exact List.suffix_refl s
  | succ n ih =>
    intro s
    simp only [dropRunes]
    by_cases hw : w s = 0
    · simp [hw]
    · simp only [hw, if_false]
      exact (ih _).trans (List.drop_suffix _ _)

/-! ## Lemmas: white-space encodings -/

theorem spaceLen_nil : spaceLen [] = 0 := by decide
theorem spaceLenRev_nil : spaceLenRev [] = 0 := by decide

/-! ### Shape of the white-space encodings -/

theorem isSpaceEnc_one (p : Nat) (h : isSpaceEnc [p] = true) : p < 128 := by
  simp [isSpaceEnc] at h
  omega

theorem isSpaceEnc_two (p q : Nat) (h : isSpaceEnc [p, q] = true) :
    p = 194 ∧ 128 ≤ q ∧ q ≤ 191 := by
  simp [isSpaceEnc] at h
  omega

theorem isSpaceEnc_three (p q s : Nat) (h : isSpaceEnc [p, q, s] = true) :
    225 ≤ p ∧ p ≤ 227 ∧ 128 ≤ q ∧ q ≤ 191 ∧ 128 ≤ s ∧ s ≤ 191 := by
  simp [isSpaceEnc] at h
  omega

theorem isSpaceEnc_one_false (p : Nat) (h : 128 ≤ p) : isSpaceEnc [p] = false := by
  cases hh : isSpaceEnc [p] with
  | false => rfl
  | true => have := isSpaceEnc_one p hh; omega

theorem isSpaceEnc_two_false (p q : Nat) (h : p ≠ 194 ∨ q < 128 ∨ 191 < q) :
    isSpaceEnc [p, q] = false := by
  cases hh : isSpaceEnc [p, q] with
  | false => rfl
  | true => have := isSpaceEnc_two p q hh; omega

theorem isSpaceEnc_three_false (p q s : Nat)
    (h : p < 225 ∨ 227 < p ∨ q < 128 ∨ 191 < q ∨ s < 128 ∨ 191 < s) :
    isSpaceEnc [p, q, s] = false := by
  cases hh : isSpaceEnc [p, q, s] with
  | false => rfl
  | true => have := isSpaceEnc_three p q s hh; omega

theorem spaceLen_spec (s : Str) (h : spaceLen s ≠ 0) :
    isSpaceEnc (s.take (spaceLen s)) = true := by
  unfold spaceLen at h ⊢
  split_ifs at h ⊢ with h1 h2 h3
  · exact h1
  · exact h2
  · exact h3
  · exact absurd rfl h

theorem spaceLenRev_spec (r : Str) (h : spaceLenRev r ≠ 0) :
    isSpaceEnc (r.take (spaceLenRev r)).reverse = true := by
  unfold spaceLenRev at h ⊢
  split_ifs at h ⊢ with h1 h2 h3
  · exact h1
  · exact h2
  · exact h3
  · exact absurd rfl h

theorem spaceLen_enc (e u : Str) (h : isSpaceEnc e = true) : spaceLen (e ++ u) = e.length := by
  rcases e with _ | ⟨a, _ | ⟨b, _ | ⟨c, _ | ⟨d, t⟩⟩⟩⟩
  · simp [isSpaceEnc] at h
  · simp [spaceLen, h]
  · have h1 := isSpaceEnc_one_false a (by have := isSpaceEnc_two a b h; omega)
    simp [spaceLen, h, h1]
  · have h1 := isSpaceEnc_one_false a (by have := isSpaceEnc_three a b c h; omega)
    have h2 := isSpaceEnc_two_false a b (by have := isSpaceEnc_three a b c h; omega)
    simp [spaceLen, h, h1, h2]
  · simp [isSpaceEnc] at h

theorem spaceLenRev_enc (e u : Str) (h : isSpaceEnc e = true) :
    spaceLenRev (e.reverse ++ u) = e.length := by
  rcases e with _ | ⟨a, _ | ⟨b, _ | ⟨c, _ | ⟨d, t⟩⟩⟩⟩
  · simp [isSpaceEnc] at h
  · simp [spaceLenRev, h]
  · have h1 := isSpaceEnc_one_false b (by have := isSpaceEnc_two a b h; omega)
    simp [spaceLenRev, h, h1]
  · have h1 := isSpaceEnc_one_false c (by have := isSpaceEnc_three a b c h; omega)
    have h2 := isSpaceEnc_two_false b c (by have := isSpaceEnc_three a b c h; omega)
    simp [spaceLenRev, h, h1, h2]
  · simp [isSpaceEnc] at h

theorem spaceLenRev_zero_one (x : Nat) (r : Str) (h : spaceLenRev (x :: r) = 0) :
    isSpaceEnc [x] = false := by
  cases hh : isSpaceEnc [x] with
  | false => rfl
  | true => simp [spaceLenRev, hh] at h

theorem spaceLenRev_zero_two (x y : Nat) (r : Str) (h : spaceLenRev (x :: y :: r) = 0) :
    isSpaceEnc [y, x] = false := by
  cases hh : isSpaceEnc [y, x] with
  | false => rfl
  | true =>
    have h1 := isSpaceEnc_one_false x (by have := isSpaceEnc_two y x hh; omega)
    simp [spaceLenRev, hh, h1] at h

/-- No white-space rune straddles the boundary between a white-space rune and
the non-empty text before it. -/
theorem spaceLenRev_append_enc (r e : Str) (he : isSpaceEnc e = true) (hr : r ≠ [])
    (h0 : spaceLenRev r = 0) : spaceLenRev (r ++ e.reverse) = 0 := by
  rcases r with _ | ⟨x, _ | ⟨y, _ | ⟨z, r⟩⟩⟩
  · exact absurd rfl hr
  · have hx := spaceLenRev_zero_one x [] h0
    rcases e with _ | ⟨a, _ | ⟨b, _ | ⟨c, _ | ⟨d, t⟩⟩⟩⟩
    · simp [isSpaceEnc] at he
    · have h2 := isSpaceEnc_two_false a x (by have := isSpaceEnc_one a he; omega)
      simp [spaceLenRev, hx, h2]
    · have h2 := isSpaceEnc_two_false b x (by have := isSpaceEnc_two a b he; omega)
      have h3 := isSpaceEnc_three_false a b x (by have := isSpaceEnc_two a b he; omega)
      simp [spaceLenRev, hx, h2, h3]
    · have h2 := isSpaceEnc_two_false c x (by have := isSpaceEnc_three a b c he; omega)
      have h3 := isSpaceEnc_three_false b c x (by have := isSpaceEnc_three a b c he; omega)
      simp [spaceLenRev, hx, h2, h3]
    · simp [isSpaceEnc] at he
  · have hx := spaceLenRev_zero_one x [y] h0
    have hy := spaceLenRev_zero_two x y [] h0
    have h3 : ∀ l, l ∈ e.reverse.head? → isSpaceEnc [l, y, x] = false := by
      intro l hl
      apply isSpaceEnc_three_false
      rcases e with _ | ⟨a, _ | ⟨b, _ | ⟨c, _ | ⟨d, t⟩⟩⟩⟩
      · simp at hl
      · simp at hl; subst hl; have := isSpaceEnc_one _ he; omega
      · simp at hl; subst hl; have := isSpaceEnc_two _ _ he; omega
      · simp at hl; subst hl; have := isSpaceEnc_three _ _ _ he; omega
      · simp [isSpaceEnc] at he
    rcases hrev : e.reverse with _ | ⟨l, t⟩
    · simp at hrev; subst hrev; simp [isSpaceEnc] at he
    · have := h3 l (by simp [hrev])
      simp [spaceLenRev, hx, hy, this]
  · have h := h0
    simp only [spaceLenRev, List.take, List.reverse_cons, List.reverse_nil, List.nil_append,
      List.cons_append, List.take_zero] at h ⊢
    exact h


theorem spaceLen_le (s : Str) : spaceLen s ≤ s.length := by
  rcases s with _ | ⟨a, _ | ⟨b, _ | ⟨c, t⟩⟩⟩ <;> simp [spaceLen, isSpaceEnc] <;> split_ifs <;> omega

theorem spaceLenRev_le (s : Str) : spaceLenRev s ≤ s.length := by
  rcases s with _ | ⟨a, _ | ⟨b, _ | ⟨c, t⟩⟩⟩ <;> simp [spaceLenRev, isSpaceEnc] <;> split_ifs <;> omega

/-- A string that starts with white space still does after appending. -/
theorem spaceLen_append (p u : Str) (h : spaceLen p ≠ 0) : spaceLen (p ++ u) = spaceLen p := by
  rcases p with _ | ⟨a, _ | ⟨b, _ | ⟨c, t⟩⟩⟩
  · simp [spaceLen_nil] at h
  · rcases u with _ | ⟨x, _ | ⟨y, u⟩⟩ <;> simp [spaceLen, isSpaceEnc] at h ⊢ <;>
      split_ifs at h ⊢ <;> omega
  · rcases u with _ | ⟨x, u⟩ <;> simp [spaceLen, isSpaceEnc] at h ⊢
    split_ifs at h ⊢ <;> omega
  · simp [spaceLen, isSpaceEnc]

theorem spaceLenRev_append (p u : Str) (h : spaceLenRev p ≠ 0) :
    spaceLenRev (p ++ u) = spaceLenRev p := by
  rcases p with _ | ⟨a, _ | ⟨b, _ | ⟨c, t⟩⟩⟩
  · simp [spaceLenRev_nil] at h
  · rcases u with _ | ⟨x, _ | ⟨y, u⟩⟩ <;> simp [spaceLenRev, isSpaceEnc] at h ⊢ <;>
      split_ifs at h ⊢ <;> omega
  · rcases u with _ | ⟨x, u⟩ <;> simp [spaceLenRev, isSpaceEnc] at h ⊢
    split_ifs at h ⊢ <;> omega
  · simp [spaceLenRev, isSpaceEnc]

/-- An ASCII byte after a non-empty string does not change how the string starts. -/
theorem spaceLen_append_ascii (t u : Str) (c : Nat) (hc : c < 128) (ht : t ≠ []) :
    spaceLen (t ++ c :: u) = spaceLen t := by
  rcases t with _ | ⟨a, _ | ⟨b, _ | ⟨d, t⟩⟩⟩
  · exact absurd rfl ht
  · rcases u with _ | ⟨y, u⟩ <;> simp [spaceLen, isSpaceEnc] <;> split_ifs <;> omega
  · simp [spaceLen, isSpaceEnc]; split_ifs <;> omega
  · simp [spaceLen, isSpaceEnc]

theorem spaceLenRev_append_ascii (t u : Str) (c : Nat) (hc : c < 128) (ht : t ≠ []) :
    spaceLenRev (t ++ c :: u) = spaceLenRev t := by
  rcases t with _ | ⟨a, _ | ⟨b, _ | ⟨d, t⟩⟩⟩
  · exact absurd rfl ht
  · rcases u with _ | ⟨y, u⟩ <;> simp [spaceLenRev, isSpaceEnc] <;> split_ifs <;> omega
  · simp [spaceLenRev, isSpaceEnc]; split_ifs <;> omega
  · simp [spaceLenRev, isSpaceEnc]

/-- How a string starts with an ASCII byte is decided by that byte alone. -/
theorem spaceLen_cons_ascii (c : Nat) (u : Str) (hc : c < 128) :
    spaceLen (c :: u) = if isSpaceEnc [c] then 1 else 0 := by
  rcases u with _ | ⟨x, _ | ⟨y, u⟩⟩ <;> simp [spaceLen, isSpaceEnc] <;> split_ifs <;> omega

theorem spaceLenRev_cons_ascii (c : Nat) (u : Str) (hc : c < 128) :
    spaceLenRev (c :: u) = if isSpaceEnc [c] then 1 else 0 := by
  rcases u with _ | ⟨x, _ | ⟨y, u⟩⟩ <;> simp [spaceLenRev, isSpaceEnc] <;> split_ifs <;> omega

/-! ## Lemmas: `TrimLeft`, `TrimRight`, `TrimSpace` -/

theorem isSpaceEnc_length (e : Str) (h : isSpaceEnc e = true) : 1 ≤ e.length ∧ e.length ≤ 3 := by
  rcases e with _ | ⟨a, _ | ⟨b, _ | ⟨c, _ | ⟨d, t⟩⟩⟩⟩ <;> simp_all [isSpaceEnc]

theorem dropRunes_append_ascii (w : Str → Nat) (c : Nat)
    (hB : ∀ t u, t ≠ [] → w (t ++ c :: u) = w t) (hB0 : ∀ u, w (c :: u) = 0)
    (hle : ∀ s, w s ≤ s.length) :
    ∀ (n : Nat) (t u : Str), t.length ≤ n →
      dropRunes w (t ++ c :: u).length (t ++ c :: u) = dropRunes w t.length t ++ c :: u := by
  intro n
  induction n with
  | zero =>
    intro t u h
    have ht : t = [] := List.length_eq_zero.mp (Nat.le_zero.mp h)
    subst ht
    rw [dropRunes_step]
    simp [hB0, dropRunes]
  | succ n ih =>
    intro t u h
    by_cases ht : t = []
    · subst ht
      rw [dropRunes_step]
      simp [hB0, dropRunes]
    · rw [dropRunes_step w (t ++ c :: u), dropRunes_step w t, hB t u ht]
      by_cases hw : w t = 0
      · simp [hw]
      · simp only [hw, if_false]
        have hlen := hle t
        rw [List.drop_append_of_le_length hlen]
        apply ih
        have : 0 < t.length := List.length_pos.mpr ht
        simp only [List.length_drop]
        omega

theorem TrimLeft_nil : TrimLeft [] = [] := by decide
theorem TrimRight_nil : TrimRight [] = [] := by decide

theorem TrimLeft_eq_self (s : Str) (h : spaceLen s = 0) : TrimLeft s = s := by
  unfold TrimLeft
  rw [dropRunes_step, if_pos h]

theorem TrimLeft_drop (s : Str) (h : spaceLen s ≠ 0) :
    TrimLeft s = TrimLeft (s.drop (spaceLen s)) := by
  unfold TrimLeft
  rw [dropRunes_step, if_neg h]

theorem TrimLeft_enc_append (e u : Str) (h : isSpaceEnc e = true) :
    TrimLeft (e ++ u) = TrimLeft u := by
  have hk := spaceLen_enc e u h
  have hpos : spaceLen (e ++ u) ≠ 0 := by
    have := isSpaceEnc_length e h
    omega
  rw [TrimLeft_drop _ hpos, hk, List.drop_left]

theorem spaceLen_TrimLeft (s : Str) : spaceLen (TrimLeft s) = 0 :=
  dropRunes_stable spaceLen spaceLen_nil s.length s (Nat.le_refl _)

theorem TrimLeft_suffix (s : Str) : TrimLeft s <:+ s :=
  dropRunes_suffix spaceLen s.length s

theorem TrimLeft_append_ascii (t u : Str) (c : Nat) (hc : c < 128)
    (hs : isSpaceEnc [c] = false) : TrimLeft (t ++ c :: u) = TrimLeft t ++ c :: u := by
  unfold TrimLeft
  exact dropRunes_append_ascii spaceLen c
    (fun t u ht => spaceLen_append_ascii t u c hc ht)
    (fun u => by rw [spaceLen_cons_ascii c u hc, hs]; rfl)
    spaceLen_le t.length t u (Nat.le_refl _)

/-- Trailing white space is removed by trimming the reversed string from the front. -/
theorem TrimRight_eq (s : Str) :
    TrimRight s = (dropRunes spaceLenRev s.reverse.length s.reverse).reverse := by
  unfold TrimRight
  rw [List.length_reverse]

theorem TrimRight_eq_self (s : Str) (h : spaceLenRev s.reverse = 0) : TrimRight s = s := by
  rw [TrimRight_eq, dropRunes_step, if_pos h, List.reverse_reverse]

theorem TrimRight_append_enc (u e : Str) (h : isSpaceEnc e = true) :
    TrimRight (u ++ e) = TrimRight u := by
  have hk := spaceLenRev_enc e u.reverse h
  have hpos : spaceLenRev (e.reverse ++ u.reverse) ≠ 0 := by
    have := isSpaceEnc_length e h
    omega
  rw [TrimRight_eq, TrimRight_eq, List.reverse_append, dropRunes_step, if_neg hpos, hk,
    ← List.length_reverse e, List.drop_left]

theorem spaceLenRev_TrimRight (s : Str) : spaceLenRev (TrimRight s).reverse = 0 := by
  rw [TrimRight_eq, List.reverse_reverse]
  exact dropRunes_stable spaceLenRev spaceLenRev_nil _ _ (Nat.le_refl _)

theorem TrimRight_pfx (s : Str) : TrimRight s <+: s := by
  rw [TrimRight_eq]
  have := dropRunes_suffix spaceLenRev s.reverse.length s.reverse
  exact List.reverse_suffix.mp (by simpa using this)

theorem TrimRight_ascii_append (u t : Str) (c : Nat) (hc : c < 128)
    (hs : isSpaceEnc [c] = false) : TrimRight (u ++ c :: t) = u ++ c :: TrimRight t := by
  rw [TrimRight_eq, TrimRight_eq]
  have hrev : (u ++ c :: t).reverse = t.reverse ++ c :: u.reverse := by simp
  rw [hrev]
  rw [dropRunes_append_ascii spaceLenRev c
    (fun t u ht => spaceLenRev_append_ascii t u c hc ht)
    (fun u => by rw [spaceLenRev_cons_ascii c u hc, hs]; rfl)
    spaceLenRev_le t.reverse.length t.reverse u.reverse (Nat.le_refl _)]
  simp

theorem dropRunes_rev_append_enc (e : Str) (he : isSpaceEnc e = true) :
    ∀ (n : Nat) (r : Str), r.length ≤ n →
      dropRunes spaceLenRev (r ++ e.reverse).length (r ++ e.reverse) =
        if dropRunes spaceLenRev r.length r = [] then []
        else dropRunes spaceLenRev r.length r ++ e.reverse := by
  have hlen := isSpaceEnc_length e he
  have hnil : dropRunes spaceLenRev (e.reverse).length e.reverse = [] := by
    have hk := spaceLenRev_enc e [] he
    rw [List.append_nil] at hk
    rw [dropRunes_step, hk, if_neg (by omega), ← List.length_reverse e, List.drop_length]
    rfl
  intro n
  induction n with
  | zero =>
    intro r h
    have hr : r = [] := List.length_eq_zero.mp (Nat.le_zero.mp h)
    subst hr
    simpa [dropRunes] using hnil
  | succ n ih =>
    intro r h
    by_cases hr : r = []
    · subst hr
      simpa [dropRunes] using hnil
    · by_cases hw : spaceLenRev r = 0
      · have h1 : dropRunes spaceLenRev r.length r = r := by
          rw [dropRunes_step, if_pos hw]
        have h2 := spaceLenRev_append_enc r e he hr hw
        rw [h1, if_neg hr, dropRunes_step, if_pos h2]
      · have h1 := spaceLenRev_append r e.reverse hw
        have hle := spaceLenRev_le r
        rw [dropRunes_step spaceLenRev (r ++ e.reverse), h1, if_neg hw,
          List.drop_append_of_le_length hle, dropRunes_step spaceLenRev r, if_neg hw]
        apply ih
        have : 0 < r.length := List.length_pos.mpr hr
        simp only [List.length_drop]
        omega

/-- Removing trailing white space from a string that starts with a white-space
rune `e`: the rune survives exactly when something after it does. -/
theorem TrimRight_enc_append (e y : Str) (he : isSpaceEnc e = true) :
    TrimRight (e ++ y) = if TrimRight y = [] then [] else e ++ TrimRight y := by
  rw [TrimRight_eq, TrimRight_eq, List.reverse_append,
    dropRunes_rev_append_enc e he y.reverse.length y.reverse (Nat.le_refl _)]
  by_cases h : dropRunes spaceLenRev y.reverse.length y.reverse = []
  · rw [if_pos h, if_pos (by rw [h]; rfl)]
    rfl
  · rw [if_neg h, if_neg (by simpa using h)]
    simp

/-- Leading and trailing white space can be removed in either order. -/
theorem TrimLeft_TrimRight_comm : ∀ (n : Nat) (x : Str), x.length ≤ n →
    TrimLeft (TrimRight x) = TrimRight (TrimLeft x) := by
  intro n
  induction n with
  | zero =>
    intro x h
    have hx : x = [] := List.length_eq_zero.mp (Nat.le_zero.mp h)
    subst hx
    decide
  | succ n ih =>
    intro x h
    by_cases hw : spaceLen x = 0
    · rw [TrimLeft_eq_self x hw]
      apply TrimLeft_eq_self
      obtain ⟨u, hu⟩ := TrimRight_pfx x
      by_contra hne
      have := spaceLen_append (TrimRight x) u hne
      rw [hu] at this
      omega
    · have henc := spaceLen_spec x hw
      have hle := spaceLen_le x
      have hsplit : x = x.take (spaceLen x) ++ x.drop (spaceLen x) :=
        (List.take_append_drop _ _).symm
      have hlen : (x.take (spaceLen x)).length = spaceLen x := by
        rw [List.length_take]; omega
      rw [TrimLeft_drop x hw]
      have hy : (x.drop (spaceLen x)).length ≤ n := by
        rw [List.length_drop]
        omega
      rw [← ih _ hy]
      conv_lhs => rw [hsplit]
      rw [TrimRight_enc_append _ _ henc]
      by_cases hnil : TrimRight (x.drop (spaceLen x)) = []
      · rw [if_pos hnil, hnil]
      · rw [if_neg hnil, TrimLeft_enc_append _ _ henc]

theorem TrimSpace_eq_comm (s : Str) : TrimSpace s = TrimLeft (TrimRight s) :=
  (TrimLeft_TrimRight_comm s.length s (Nat.le_refl _)).symm

theorem TrimSpace_nil : TrimSpace [] = [] := by decide

theorem TrimLeft_idem (s : Str) : TrimLeft (TrimLeft s) = TrimLeft s :=
  TrimLeft_eq_self _ (spaceLen_TrimLeft s)

theorem TrimRight_idem (s : Str) : TrimRight (TrimRight s) = TrimRight s :=
  TrimRight_eq_self _ (spaceLenRev_TrimRight s)

theorem TrimSpace_TrimLeft (s : Str) : TrimSpace (TrimLeft s) = TrimSpace s := by
  unfold TrimSpace
  rw [TrimLeft_idem]

theorem TrimSpace_TrimRight (s : Str) : TrimSpace (TrimRight s) = TrimSpace s := by
  rw [TrimSpace_eq_comm, TrimSpace_eq_comm, TrimRight_idem]

theorem TrimSpace_eq_self (s : Str) (h1 : spaceLen s = 0) (h2 : spaceLenRev s.reverse = 0) :
    TrimSpace s = s := by
  unfold TrimSpace
  rw [TrimLeft_eq_self s h1, TrimRight_eq_self s h2]

theorem TrimSpace_append_enc (s e : Str) (h : isSpaceEnc e = true) :
    TrimSpace (s ++ e) = TrimSpace s := by
  rw [TrimSpace_eq_comm, TrimSpace_eq_comm, TrimRight_append_enc s e h]

theorem TrimSpace_enc_append (e s : Str) (h : isSpaceEnc e = true) :
    TrimSpace (e ++ s) = TrimSpace s := by
  unfold TrimSpace
  rw [TrimLeft_enc_append e s h]

/-- Trimming a string around an ASCII byte that is not white space trims the
text before it on the left and the text after it on the right. -/
theorem TrimSpace_ascii (a b : Str) (c : Nat) (hc : c < 128) (hs : isSpaceEnc [c] = false) :
    TrimSpace (a ++ c :: b) = TrimLeft a ++ c :: TrimRight b := by
  unfold TrimSpace
  rw [TrimLeft_append_ascii a b c hc hs, TrimRight_ascii_append _ b c hc hs]

theorem TrimSpace_sub (s : Str) : ∀ x, x ∈ TrimSpace s → x ∈ s := by
  intro x hx
  unfold TrimSpace at hx
  exact (TrimLeft_suffix s).subset ((TrimRight_pfx _).subset hx)

/-- A trimmed string does not start with a space. -/
theorem TrimSpace_head (s t : Str) : TrimSpace s ≠ 32 :: t := by
  intro h
  obtain ⟨u, hu⟩ := TrimRight_pfx (TrimLeft s)
  unfold TrimSpace at h
  rw [h] at hu
  have h0 := spaceLen_TrimLeft s
  rw [← hu] at h0
  have h1 : spaceLen (32 :: (t ++ u)) = 1 := by
    rw [spaceLen_cons_ascii 32 _ (by omega)]
    rfl
  rw [List.cons_append] at h0
  omega

/-- A trimmed string does not end with a space. -/
theorem TrimSpace_last (s t : Str) : TrimSpace s ≠ t ++ [32] := by
  intro h
  have h0 := spaceLenRev_TrimRight (TrimLeft s)
  unfold TrimSpace at h
  rw [h] at h0
  have h1 : spaceLenRev (32 :: t.reverse) = 1 := by
    rw [spaceLenRev_cons_ascii 32 _ (by omega)]
    rfl
  simp at h0
  omega

/-! ## Lemmas: `cut`, `Split`, `SplitN`, `ReadString` -/

theorem cut_append (a b : Str) (sep : Nat) (h : sep ∉ a) :
    cut (a ++ sep :: b) sep = some (a, b) := by
  induction a with
  | nil => simp [cut]
  | cons c t ih =>
    have hc : c ≠ sep := fun hh => h (by simp [hh])
    have ht : sep ∉ t := fun hh => h (by simp [hh])
    simp [cut, hc, ih ht]

theorem cut_none (s : Str) (sep : Nat) (h : sep ∉ s) : cut s sep = none := by
  induction s with
  | nil => rfl
  | cons c t ih =>
    have hc : c ≠ sep := fun hh => h (by simp [hh])
    have ht : sep ∉ t := fun hh => h (by simp [hh])
    simp [cut, hc, ih ht]

theorem cut_some (s : Str) (sep : Nat) (a b : Str) (h : cut s sep = some (a, b)) :
    s = a ++ sep :: b ∧ sep ∉ a := by
  induction s generalizing a with
  | nil => simp [cut] at h
  | cons c t ih =>
    by_cases hc : c = sep
    · simp [cut, hc] at h
      obtain ⟨h1, h2⟩ := h
      subst h1 h2 hc
      simp
    · simp only [cut, hc, if_false] at h
      cases hcut : cut t sep with
      | none => simp [hcut] at h
      | some p =>
        obtain ⟨a', b'⟩ := p
        simp [hcut] at h
        obtain ⟨h1, h2⟩ := h
        subst h1 h2
        obtain ⟨e1, e2⟩ := ih _ hcut
        constructor
        · simp [e1]
        · simp only [List.mem_cons, not_or]
          exact ⟨fun hh => hc hh.symm, e2⟩

theorem cut_mem (s : Str) (sep : Nat) (h : sep ∈ s) : ∃ a b, cut s sep = some (a, b) := by
  cases hcut : cut s sep with
  | some p => exact ⟨p.1, p.2, rfl⟩
  | none =>
    exfalso
    induction s with
    | nil => simp at h
    | cons c t ih =>
      by_cases hc : c = sep
      · simp [cut, hc] at hcut
      · simp only [cut, hc, if_false] at hcut
        cases h2 : cut t sep with
        | none =>
          apply ih _ h2
          rcases List.mem_cons.mp h with h3 | h3
          · exact absurd h3.symm hc
          · exact h3
        | some p => simp [h2] at hcut

theorem ReadString_append (a b : Str) (delim : Nat) (h : delim ∉ a) :
    ReadString (a ++ delim :: b) delim = some (a ++ [delim], b) := by
  simp [ReadString, cut_append a b delim h]

theorem ReadString_none (s : Str) (delim : Nat) (h : delim ∉ s) : ReadString s delim = none := by
  simp [ReadString, cut_none s delim h]

theorem ReadString_some (s : Str) (delim : Nat) (l r : Str)
    (h : ReadString s delim = some (l, r)) :
    ∃ a, l = a ++ [delim] ∧ s = a ++ delim :: r ∧ delim ∉ a := by
  unfold ReadString at h
  cases hcut : cut s delim with
  | none => simp [hcut] at h
  | some p =>
    obtain ⟨a, b⟩ := p
    simp [hcut] at h
    obtain ⟨h1, h2⟩ := h
    subst h1 h2
    obtain ⟨e1, e2⟩ := cut_some s delim a b hcut
    exact ⟨a, rfl, e1, e2⟩

theorem Split_ne_nil (s : Str) (sep : Nat) : Split s sep ≠ [] := by
  induction s with
  | nil => simp [Split]
  | cons c t ih =>
    unfold Split
    split_ifs
    · simp
    · cases h : Split t sep with
      | nil => exact absurd h ih
      | cons a r => simp

theorem Split_not_mem (a : Str) (sep : Nat) (h : sep ∉ a) : Split a sep = [a] := by
  induction a with
  | nil => rfl
  | cons c t ih =>
    have hc : c ≠ sep := fun hh => h (by simp [hh])
    have ht : sep ∉ t := fun hh => h (by simp [hh])
    simp [Split, hc, ih ht]

theorem Split_append (a b : Str) (sep : Nat) (h : sep ∉ a) :
    Split (a ++ sep :: b) sep = a :: Split b sep := by
  induction a with
  | nil => simp [Split]
  | cons c t ih =>
    have hc : c ≠ sep := fun hh => h (by simp [hh])
    have ht : sep ∉ t := fun hh => h (by simp [hh])
    simp [Split, hc, ih ht]

/-- Joining the fields of `Split` with the separator gives the string back. -/
theorem Split_join (s : Str) (sep : Nat) : List.intercalate [sep] (Split s sep) = s := by
  induction s with
  | nil => simp [Split, List.intercalate]
  | cons c t ih =>
    unfold Split
    split_ifs with hc
    · have hne := Split_ne_nil t sep
      cases h : Split t sep with
      | nil => exact absurd h hne
      | cons a r =>
        rw [h] at ih
        simp [List.intercalate] at ih ⊢
        rw [← ih, hc]
        simp
    · cases h : Split t sep with
      | nil => exact absurd h (Split_ne_nil t sep)
      | cons a r =>
        rw [h] at ih
        simp [List.intercalate] at ih ⊢
        rw [← ih]
        cases r <;> simp

theorem Split_three (s : Str) (sep : Nat) (a b c : Str) (h : Split s sep = [a, b, c]) :
    s = a ++ sep :: (b ++ sep :: c) := by
  have := Split_join s sep
  rw [h] at this
  simpa [List.intercalate] using this.symm

theorem SplitN_two_colon (a b : Str) (sep : Nat) (h : sep ∉ a) :
    SplitN (a ++ sep :: b) sep 2 = [a, b] := by
  simp [SplitN, cut_append a b sep h]

theorem SplitN_two_none (s : Str) (sep : Nat) (h : sep ∉ s) : SplitN s sep 2 = [s] := by
  simp [SplitN, cut_none s sep h]

/-! ## Lemmas: the header loop -/

theorem headerLoop_line (line rest cur : Str) (h : HeaderMap) (hl : 10 ∉ line) :
    headerLoop (line ++ 10 :: rest) cur h =
      if TrimSpace (cur ++ line ++ [10]) = [] then some (h, rest)
      else headerLoop rest [] (storeHeader h (TrimSpace (cur ++ line ++ [10]))) := by
  induction line generalizing cur with
  | nil => simp [headerLoop]
  | cons c t ih =>
    have hc : c ≠ 10 := fun hh => hl (by simp [hh])
    have ht : 10 ∉ t := fun hh => hl (by simp [hh])
    rw [List.cons_append]
    simp only [headerLoop, hc, if_false]
    have := ih (cur ++ [c]) ht
    simp only [List.append_assoc, List.singleton_append] at this ⊢
    exact this

theorem headerLoop_eof (s cur : Str) (h : HeaderMap) (hs : 10 ∉ s) :
    headerLoop s cur h = none := by
  induction s generalizing cur with
  | nil => rfl
  | cons c t ih =>
    have hc : c ≠ 10 := fun hh => hs (by simp [hh])
    have ht : 10 ∉ t := fun hh => hs (by simp [hh])
    simp only [headerLoop, hc, if_false]
    exact ih _ ht

/-- The loop of lines 46-62 as the source writes it: read a line, trim it, stop
at an empty line, store the header and repeat. -/
theorem headerLoop_ReadString (reader : Reader) (h : HeaderMap) :
    headerLoop reader [] h =
      match ReadString reader 10 with
      | none => none
      | some (line, reader') =>
        if TrimSpace line = [] then some (h, reader')
        else headerLoop reader' [] (storeHeader h (TrimSpace line)) := by
  by_cases hm : 10 ∈ reader
  · obtain ⟨a, b, hcut⟩ := cut_mem reader 10 hm
    obtain ⟨e1, e2⟩ := cut_some reader 10 a b hcut
    subst e1
    rw [headerLoop_line a b [] h e2, ReadString_append a b 10 e2]
    simp
  · rw [headerLoop_eof reader [] h hm, ReadString_none reader 10 hm]

theorem headerLoop_blank (blank rest : Str) (h : HeaderMap) (hb : 10 ∉ blank)
    (he : TrimSpace (blank ++ [10]) = []) :
    headerLoop (blank ++ 10 :: rest) [] h = some (h, rest) := by
  rw [headerLoop_line blank rest [] h hb]
  simp [he]

theorem headerLoop_block (lines : List Str) (rest : Str) (h : HeaderMap)
    (hl : ∀ l ∈ lines, 10 ∉ l ∧ TrimSpace (l ++ [10]) ≠ []) :
    headerLoop (block lines ++ rest) [] h =
      headerLoop rest []
        (lines.foldl (fun m l => storeHeader m (TrimSpace (l ++ [10]))) h) := by
  induction lines generalizing h with
  | nil => simp [block]
  | cons l ls ih =>
    obtain ⟨h1, h2⟩ := hl l (by simp)
    have hls : ∀ l ∈ ls, 10 ∉ l ∧ TrimSpace (l ++ [10]) ≠ [] :=
      fun x hx => hl x (by simp [hx])
    simp only [block, List.append_assoc, List.cons_append, List.foldl_cons]
    rw [headerLoop_line l (block ls ++ rest) [] h h1]
    simp only [List.nil_append, h2, if_false]
    exact ih _ hls

/-- Cutting the stream short either makes the header loop fail or leaves its
result unchanged up to the missing tail. -/
theorem headerLoop_truncate (a q cur : Str) (h h' : HeaderMap) (r : Str)
    (hok : headerLoop (a ++ q) cur h = some (h', r)) :
    headerLoop a cur h = none ∨ ∃ r', r = r' ++ q ∧ headerLoop a cur h = some (h', r') := by
  induction a generalizing cur h with
  | nil => left; rfl
  | cons c t ih =>
    simp only [List.cons_append, headerLoop] at hok ⊢
    by_cases hc : c = 10
    · simp only [hc, if_true] at hok ⊢
      by_cases he : TrimSpace (cur ++ [10]) = []
      · simp only [he, if_true] at hok ⊢
        right
        simp only [Option.some.injEq, Prod.mk.injEq] at hok
        obtain ⟨e1, e2⟩ := hok
        exact ⟨t, e2.symm, by rw [e1]⟩
      · simp only [he, if_false] at hok ⊢
        exact ih _ _ hok
    · simp only [hc, if_false] at hok ⊢
      exact ih _ _ hok

/-! ## Lemmas: storing a header -/

theorem isSpaceEnc_colon : isSpaceEnc [58] = false := by decide

theorem TrimSpace_colon (a b : Str) :
    TrimSpace (a ++ 58 :: b) = TrimLeft a ++ 58 :: TrimRight b :=
  TrimSpace_ascii a b 58 (by omega) isSpaceEnc_colon

theorem TrimSpace_colon_ne_nil (a b : Str) : TrimSpace (a ++ 58 :: b) ≠ [] := by
  rw [TrimSpace_colon]
  simp

/-- Lines 56-61 on a line with a colon: the key is the trimmed text before the
first colon, the value the trimmed text after it. -/
theorem storeHeader_colon (h : HeaderMap) (a b : Str) (ha : 58 ∉ a) :
    storeHeader h (TrimSpace (a ++ 58 :: b)) = h.assign (TrimSpace a) (TrimSpace b) := by
  have hsub : 58 ∉ TrimLeft a := fun hh => ha ((TrimLeft_suffix a).subset hh)
  unfold storeHeader
  rw [TrimSpace_colon, SplitN_two_colon _ _ 58 hsub]
  simp only
  rw [TrimSpace_TrimLeft, TrimSpace_TrimRight]

/-- Lines 56-61 on a line without a colon: nothing is stored. -/
theorem storeHeader_no_colon (h : HeaderMap) (line : Str) (hl : 58 ∉ line) :
    storeHeader h (TrimSpace line) = h := by
  have hsub : 58 ∉ TrimSpace line := fun hh => hl (TrimSpace_sub line 58 hh)
  unfold storeHeader
  rw [SplitN_two_none _ 58 hsub]

/-- What the loop stores for a raw line (newline excluded), in terms of
`headerField`. -/
theorem storeHeader_line (h : HeaderMap) (l : Str) :
    storeHeader h (TrimSpace (l ++ [10])) =
      match headerField l with
      | some (name, value) => h.assign name value
      | none => h := by
  by_cases hm : 58 ∈ l
  · obtain ⟨a, b, hcut⟩ := cut_mem l 58 hm
    obtain ⟨e1, e2⟩ := cut_some l 58 a b hcut
    subst e1
    have : (a ++ 58 :: b) ++ [10] = a ++ 58 :: (b ++ [10]) := by simp
    rw [this, storeHeader_colon h a (b ++ [10]) e2]
    simp only [headerField, cut_append a b 58 e2]
    rw [TrimSpace_append_enc b [10] (by decide)]
  · have h10 : 58 ∉ l ++ [10] := by simpa using hm
    rw [storeHeader_no_colon h _ h10]
    simp [headerField, cut_none l 58 hm]

/-! ## Lemmas: the header map -/

theorem entry_filter_ne (m : HeaderMap) (k k' : Str) (h : k ≠ k') :
    HeaderMap.entry (m.filter (fun p => p.1 != k)) k' = HeaderMap.entry m k' := by
  induction m with
  | nil => rfl
  | cons p t ih =>
    obtain ⟨x, v⟩ := p
    by_cases hx : x = k
    · subst hx
      simp [HeaderMap.entry, h, ih]
    · have hb : (x != k) = true := by simpa using hx
      rw [List.filter_cons_of_pos (by simpa using hx)]
      simp only [HeaderMap.entry, ih]

theorem entry_assign (m : HeaderMap) (k v k' : Str) :
    (m.assign k v).entry k' = if k = k' then some v else m.entry k' := by
  unfold HeaderMap.assign
  by_cases h : k = k'
  · simp [HeaderMap.entry, h]
  · simp only [HeaderMap.entry, h, if_false]
    exact entry_filter_ne m k k' h

theorem entry_foldl (lines : List Str) (h : HeaderMap) (k : Str) :
    (lines.foldl (fun m l => storeHeader m (TrimSpace (l ++ [10]))) h).entry k =
      match lastValue lines k with
      | some v => some v
      | none => h.entry k := by
  induction lines generalizing h with
  | nil => simp [lastValue]
  | cons l ls ih =>
    simp only [List.foldl_cons, lastValue]
    rw [ih]
    cases hlv : lastValue ls k with
    | some v => simp
    | none =>
      simp only
      rw [storeHeader_line]
      cases hf : headerField l with
      | none => simp
      | some p =>
        obtain ⟨name, value⟩ := p
        simp only
        rw [entry_assign]
        by_cases hn : name = k
        · simp [hn]
        · simp [hn]

/-! ## Lemmas: strings without white space -/

theorem hasSpace_head (t : Str) (h : hasSpace t = false) : spaceLen t = 0 := by
  cases t with
  | nil => exact spaceLen_nil
  | cons c t => simpa [hasSpace] using (Bool.or_eq_false_iff.mp h).1

theorem hasSpace_append (a b : Str) (h : hasSpace (a ++ b) = false) : hasSpace b = false := by
  induction a with
  | nil => simpa using h
  | cons c t ih =>
    rw [List.cons_append] at h
    exact ih (Bool.or_eq_false_iff.mp h).2

theorem hasSpace_mem (t : Str) (h : hasSpace t = false) (c : Nat) (hc : c ∈ t) :
    isSpaceEnc [c] = false := by
  obtain ⟨a, b, hab⟩ := List.append_of_mem hc
  rw [hab] at h
  have h1 := hasSpace_head _ (hasSpace_append a (c :: b) h)
  cases hh : isSpaceEnc [c] with
  | false => rfl
  | true =>
    have := spaceLen_enc [c] b hh
    simp at this
    omega

theorem hasSpace_last (t : Str) (h : hasSpace t = false) : spaceLenRev t.reverse = 0 := by
  by_contra hne
  have henc := spaceLenRev_spec t.reverse hne
  have hsplit : t = (t.reverse.drop (spaceLenRev t.reverse)).reverse ++
      (t.reverse.take (spaceLenRev t.reverse)).reverse := by
    rw [← List.reverse_append, List.take_append_drop, List.reverse_reverse]
  rw [hsplit] at h
  have h1 := hasSpace_head _ (hasSpace_append _ _ h)
  have h2 := spaceLen_enc _ [] henc
  have h3 := isSpaceEnc_length _ henc
  rw [List.append_nil] at h2
  omega

theorem edgeSpace_false (s : Str) (h : edgeSpace s = false) :
    spaceLen s = 0 ∧ spaceLenRev s.reverse = 0 := by
  unfold edgeSpace at h
  have := Bool.or_eq_false_iff.mp h
  simpa using this

theorem TrimSpace_of_edgeSpace (s : Str) (h : edgeSpace s = false) : TrimSpace s = s :=
  TrimSpace_eq_self s (edgeSpace_false s h).1 (edgeSpace_false s h).2

/-! ## Lemmas: `Atoi` and `Itoa` -/

theorem parseDigits_itoaAux : ∀ (fuel n : Nat) (acc : Str), n < fuel →
    parseDigits (itoaAux fuel n acc) 0 = parseDigits acc n := by
  intro fuel
  induction fuel with
  | zero => intro n acc h; omega
  | succ f ih =>
    intro n acc h
    unfold itoaAux
    by_cases hn : n < 10
    · simp only [hn, if_true, parseDigits]
      have h1 : 48 ≤ n + 48 ∧ n + 48 ≤ 57 := by omega
      simp [h1]
    · simp only [hn, if_false]
      rw [ih (n / 10) _ (by omega)]
      simp only [parseDigits]
      have h1 : 48 ≤ n % 10 + 48 ∧ n % 10 + 48 ≤ 57 := by omega
      simp only [h1, and_self, if_true]
      congr 1
      omega

theorem itoaAux_head : ∀ (fuel n : Nat) (acc : Str), n < fuel →
    ∃ d t, itoaAux fuel n acc = d :: t ∧ 48 ≤ d ∧ d ≤ 57 := by
  intro fuel
  induction fuel with
  | zero => intro n acc h; omega
  | succ f ih =>
    intro n acc h
    unfold itoaAux
    by_cases hn : n < 10
    · simp only [hn, if_true]
      exact ⟨n + 48, acc, rfl, by omega, by omega⟩
    · simp only [hn, if_false]
      exact ih (n / 10) _ (by omega)

/-- The decimal numeral of a value in the range of a 64-bit `int` is converted
back to that value. -/
theorem Atoi_Itoa (n : Nat) (h : n < 2 ^ 63) : Atoi (Itoa n) = some (n : Int) := by
  obtain ⟨d, t, hd, h1, h2⟩ := itoaAux_head (n + 1) n [] (by omega)
  have hp := parseDigits_itoaAux (n + 1) n [] (by omega)
  unfold Itoa at *
  unfold Atoi
  have e1 : (itoaAux (n + 1) n []).head? = some d := by rw [hd]; rfl
  have e2 : d ≠ 43 := by omega
  have e3 : d ≠ 45 := by omega
  simp only [e1, Option.some.injEq, e2, e3, or_self, if_false, decide_False]
  rw [hp]
  have h' : n < 9223372036854775808 := by
    have : (2 : Nat) ^ 63 = 9223372036854775808 := by norm_num
    omega
  simp [hd, parseDigits, h']

/-- What is not a numeral is rejected by `Atoi`. -/
theorem Atoi_not_numeral (s : Str) (h : isNumeral s = false) : Atoi s = none := by
  have key : ∀ (ds : Str) (acc : Nat),
      ds.all (fun c => decide (48 ≤ c) && decide (c ≤ 57)) = false →
      parseDigits ds acc = none := by
    intro ds
    induction ds with
    | nil => intro acc hh; simp at hh
    | cons c t ih =>
      intro acc hh
      unfold parseDigits
      by_cases hc : 48 ≤ c ∧ c ≤ 57
      · simp only [hc, and_self, if_true]
        apply ih
        simpa [hc] using hh
      · simp [hc]
  unfold isNumeral at h
  unfold Atoi
  simp only at h ⊢
  generalize (if s.head? = some 43 ∨ s.head? = some 45 then s.tail else s) = ds at h ⊢
  by_cases hds : ds = []
  · simp [hds]
  · have hall : ds.all (fun c => decide (48 ≤ c) && decide (c ≤ 57)) = false := by
      cases ds with
      | nil => exact absurd rfl hds
      | cons c t => simpa using h
    simp [hds, key ds 0 hall]

/-! ## Lemmas: `parseRequest` on a stream of lines -/

theorem str_space : str " " = [32] := by decide
theorem str_crlf : str "\r\n" = [13, 10] := by decide
theorem str_colon_space : str ": " = [58, 32] := by decide
theorem str_POST : str "POST" = [80, 79, 83, 84] := by decide

/-- The parser on a first line followed by anything. -/
theorem parseRequestReader_first {proc : Process} (first tail : Str) (h1 : 10 ∉ first) :
    parseRequestReader proc (first ++ 10 :: tail) =
      match Split (TrimSpace (first ++ [10])) 32 with
      | [method, path, version] =>
        match headerLoop tail [] [] with
        | none => .error .readHeaderLine
        | some (headers, reader) => readBody proc method path version headers reader
      | _ => .error .invalidRequestLine := by
  unfold parseRequestReader
  simp only [ReadString_append first tail 10 h1]

/-- The parser on a stream with a complete header block. -/
theorem parseRequestReader_stream {proc : Process} (first : Str) (lines : List Str)
    (blank rest : Str)
    (h1 : 10 ∉ first) (hl : HeaderLines lines) (hb : BlankLine blank) :
    parseRequestReader proc (stream first lines blank rest) =
      match Split (TrimSpace (first ++ [10])) 32 with
      | [method, path, version] => readBody proc method path version (headersOf lines) rest
      | _ => .error .invalidRequestLine := by
  unfold stream
  rw [parseRequestReader_first first _ h1, headerLoop_block lines _ [] hl,
    headerLoop_blank blank rest _ hb.1 hb.2]
  rfl

theorem parseRequest_ok {proc : Process} (s : Str) (req : Request) :
    parseRequest proc s = .ok req ↔ ∃ r, parseRequestReader proc s = .ok (req, r) := by
  unfold parseRequest
  cases h : parseRequestReader proc s with
  | ok p => obtain ⟨q, r⟩ := p; simp
  | error e => simp
  | panic => simp

theorem parseRequest_of_reader {proc : Process} (s : Str) (req : Request) (r : Reader)
    (h : parseRequestReader proc s = .ok (req, r)) : parseRequest proc s = .ok req :=
  (parseRequest_ok s req).mpr ⟨r, h⟩

/-! ## Lemmas: serialised requests -/

theorem requestLine_trim (m p v : Str) (hm : WellFormedToken m) (hv : WellFormedToken v) :
    TrimSpace ((m ++ 32 :: (p ++ 32 :: (v ++ [13]))) ++ [10]) = m ++ 32 :: (p ++ 32 :: v) := by
  have e : (m ++ 32 :: (p ++ 32 :: (v ++ [13]))) ++ [10]
      = ((m ++ 32 :: (p ++ 32 :: v)) ++ [13]) ++ [10] := by simp
  rw [e, TrimSpace_append_enc _ [10] (by decide), TrimSpace_append_enc _ [13] (by decide)]
  apply TrimSpace_eq_self
  · rw [spaceLen_append_ascii m _ 32 (by omega) hm.1]
    exact hasSpace_head m hm.2
  · have e2 : (m ++ 32 :: (p ++ 32 :: v)).reverse
        = v.reverse ++ 32 :: (p.reverse ++ 32 :: m.reverse) := by simp
    rw [e2, spaceLenRev_append_ascii v.reverse _ 32 (by omega) (by simpa using hv.1)]
    exact hasSpace_last v hv.2

theorem requestLine_split (m p v : Str) (hm : WellFormedToken m) (hp : WellFormedToken p)
    (hv : WellFormedToken v) : Split (m ++ 32 :: (p ++ 32 :: v)) 32 = [m, p, v] := by
  have h32 : ∀ t, WellFormedToken t → 32 ∉ t := by
    intro t ht hmem
    have := hasSpace_mem t ht.2 32 hmem
    exact absurd this (by decide)
  rw [Split_append m _ 32 (h32 m hm), Split_append p _ 32 (h32 p hp),
    Split_not_mem v 32 (h32 v hv)]

theorem token_no_newline (t : Str) (ht : WellFormedToken t) : 10 ∉ t := by
  intro hmem
  have := hasSpace_mem t ht.2 10 hmem
  exact absurd this (by decide)

/-- The raw line (newline excluded) a header pair is written as. -/
theorem headerLine_eq (p : Str × Str) :
    headerLine p = (p.1 ++ 58 :: 32 :: (p.2 ++ [13])) ++ [10] := by
  simp [headerLine, str_colon_space, str_crlf]

theorem headerLines_eq (pairs : List (Str × Str)) :
    headerLines pairs = block (pairs.map (fun p => p.1 ++ 58 :: 32 :: (p.2 ++ [13]))) := by
  induction pairs with
  | nil => rfl
  | cons p ps ih =>
    simp only [headerLines, List.map_cons, block, headerLine_eq, ih]
    simp

theorem serialize_eq (m p v : Str) (pairs : List (Str × Str)) (rest : Str) :
    serialize m p v pairs ++ rest =
      stream (m ++ 32 :: (p ++ 32 :: (v ++ [13])))
        (pairs.map (fun p => p.1 ++ 58 :: 32 :: (p.2 ++ [13]))) [13] rest := by
  simp [serialize, stream, headerLines_eq, str_space, str_crlf]

theorem wellFormed_line (p : Str × Str) (hp : WellFormedHeader p) :
    10 ∉ p.1 ++ 58 :: 32 :: (p.2 ++ [13]) ∧
      TrimSpace ((p.1 ++ 58 :: 32 :: (p.2 ++ [13])) ++ [10]) ≠ [] := by
  obtain ⟨h1, h2, h3, h4, h5⟩ := hp
  constructor
  · simp [h2, h3]
  · have : (p.1 ++ 58 :: 32 :: (p.2 ++ [13])) ++ [10] = p.1 ++ 58 :: (32 :: (p.2 ++ [13, 10])) := by
      simp
    rw [this]
    exact TrimSpace_colon_ne_nil _ _

theorem wellFormed_store (h : HeaderMap) (p : Str × Str) (hp : WellFormedHeader p) :
    storeHeader h (TrimSpace ((p.1 ++ 58 :: 32 :: (p.2 ++ [13])) ++ [10])) =
      h.assign p.1 p.2 := by
  obtain ⟨h1, h2, h3, h4, h5⟩ := hp
  have e : (p.1 ++ 58 :: 32 :: (p.2 ++ [13])) ++ [10]
      = p.1 ++ 58 :: ([32] ++ ((p.2 ++ [13]) ++ [10])) := by simp
  rw [e, storeHeader_colon h p.1 _ h1, TrimSpace_enc_append [32] _ (by decide),
    TrimSpace_append_enc _ [10] (by decide), TrimSpace_append_enc _ [13] (by decide),
    TrimSpace_of_edgeSpace p.1 h4, TrimSpace_of_edgeSpace p.2 h5]

theorem headersOf_pairs (pairs : List (Str × Str)) (hp : ∀ p ∈ pairs, WellFormedHeader p) :
    headersOf (pairs.map (fun p => p.1 ++ 58 :: 32 :: (p.2 ++ [13]))) = mapOfPairs pairs := by
  unfold headersOf mapOfPairs
  generalize ([] : HeaderMap) = h
  induction pairs generalizing h with
  | nil => rfl
  | cons p ps ih =>
    simp only [List.map_cons, List.foldl_cons]
    rw [wellFormed_store h p (hp p (by simp))]
    exact ih (fun q hq => hp q (by simp [hq])) _

theorem blank_cr : BlankLine [13] := ⟨by decide, by decide⟩

/-- The parser on a serialised request head followed by `rest`: request line and
headers are recovered, what remains is the body decision. -/
theorem parseRequestReader_serialize {proc : Process} (m p v : Str) (pairs : List (Str × Str))
    (rest : Str)
    (hm : WellFormedToken m) (hp : WellFormedToken p) (hv : WellFormedToken v)
    (hh : ∀ q ∈ pairs, WellFormedHeader q) :
    parseRequestReader proc (serialize m p v pairs ++ rest) =
      readBody proc m p v (mapOfPairs pairs) rest := by
  have h1 : 10 ∉ m ++ 32 :: (p ++ 32 :: (v ++ [13])) := by
    have a := token_no_newline m hm
    have b := token_no_newline p hp
    have c := token_no_newline v hv
    simp [a, b, c]
  have hl : HeaderLines (pairs.map (fun p => p.1 ++ 58 :: 32 :: (p.2 ++ [13]))) := by
    intro l hl
    obtain ⟨q, hq, rfl⟩ := List.mem_map.mp hl
    exact wellFormed_line q (hh q hq)
  rw [serialize_eq, parseRequestReader_stream _ _ _ _ h1 hl blank_cr,
    requestLine_trim m p v hm hv, requestLine_split m p v hm hp hv, headersOf_pairs pairs hh]

/-! ## Lemmas: inverting a successful parse -/

theorem makeslice_neg (proc : Process) (z : Int) (hz : z < 0) : makeslice proc z = false := by
  unfold makeslice
  have : ¬ (0 ≤ z) := by omega
  simp [this]

theorem makeslice_nonneg (proc : Process) (z : Int) (h : makeslice proc z = true) : 0 ≤ z := by
  unfold makeslice at h
  simp only [Bool.and_eq_true, decide_eq_true_eq] at h
  exact h.1.1

/-- A buffer of `n` bytes within `maxAlloc` is made when `n` is 0 or the process
obtains the memory. -/
theorem makeslice_of (proc : Process) (n : Nat) (h1 : n ≤ maxAlloc)
    (h2 : n = 0 ∨ proc.Alloc n = true) : makeslice proc (n : Int) = true := by
  unfold makeslice
  have e1 : (0 : Int) ≤ (n : Int) := by omega
  have e2 : (n : Int) ≤ (maxAlloc : Int) := by exact_mod_cast h1
  rcases h2 with h | h
  · subst h
    simp [e2]
  · simp [e1, e2, h]

theorem readBody_post_panic {proc : Process} (p v : Str) (h : HeaderMap) (r : Reader) (z : Int)
    (ha : Atoi (h.index (str "Content-Length")) = some z) (hmk : makeslice proc z = false) :
    readBody proc (str "POST") p v h r = .panic := by
  unfold readBody
  rw [if_pos rfl, ha]
  dsimp only
  rw [if_pos hmk]

theorem readBody_post_ok {proc : Process} (p v : Str) (h : HeaderMap) (r : Reader) (z : Int)
    (ha : Atoi (h.index (str "Content-Length")) = some z) (hmk : makeslice proc z = true)
    (hlen : z.toNat ≤ r.length) :
    readBody proc (str "POST") p v h r =
      .ok ({ Method := str "POST", Path := p, Version := v, Headers := h,
             Body := r.take z.toNat }, r.drop z.toNat) := by
  have h0 : ¬ (makeslice proc z = false) := by
    rw [hmk]
    decide
  unfold readBody
  rw [if_pos rfl, ha]
  dsimp only
  rw [if_neg h0]
  simp only [ReadFull, hlen, if_true]

theorem readBody_post_short {proc : Process} (p v : Str) (h : HeaderMap) (r : Reader) (z : Int)
    (ha : Atoi (h.index (str "Content-Length")) = some z) (hmk : makeslice proc z = true)
    (hlen : r.length < z.toNat) :
    readBody proc (str "POST") p v h r = .error .readBody := by
  have h0 : ¬ (makeslice proc z = false) := by
    rw [hmk]
    decide
  have h1 : ¬ (z.toNat ≤ r.length) := by omega
  unfold readBody
  rw [if_pos rfl, ha]
  dsimp only
  rw [if_neg h0]
  simp only [ReadFull, h1, if_false]

theorem readBody_ok {proc : Process} (m p v : Str) (h : HeaderMap) (r1 : Reader) (req : Request)
    (r : Reader) (hok : readBody proc m p v h r1 = .ok (req, r)) :
    req.Method = m ∧ req.Path = p ∧ req.Version = v ∧ req.Headers = h ∧
      ((m ≠ str "POST" ∧ req.Body = [] ∧ r = r1) ∨
        (m = str "POST" ∧ ∃ n : Nat, Atoi (h.index (str "Content-Length")) = some (n : Int) ∧
          makeslice proc (n : Int) = true ∧
          n ≤ r1.length ∧ req.Body = r1.take n ∧ r = r1.drop n)) := by
  unfold readBody at hok
  by_cases hm : m = str "POST"
  · simp only [hm, if_true] at hok
    cases ha : Atoi (h.index (str "Content-Length")) with
    | none => simp [ha] at hok
    | some z =>
      simp only [ha] at hok
      by_cases hz : makeslice proc z = false
      · simp [hz] at hok
      · rw [if_neg hz] at hok
        have hz' : makeslice proc z = true := by simpa using hz
        have hnn := makeslice_nonneg proc z hz'
        have hcast : ((z.toNat : Nat) : Int) = z := Int.toNat_of_nonneg hnn
        unfold ReadFull at hok
        by_cases hlen : z.toNat ≤ r1.length
        · simp only [hlen, if_true, Outcome.ok.injEq, Prod.mk.injEq] at hok
          obtain ⟨e1, e2⟩ := hok
          subst e1 e2
          refine ⟨hm.symm ▸ rfl, rfl, rfl, rfl,
            Or.inr ⟨hm, z.toNat, ?_, ?_, hlen, rfl, rfl⟩⟩
          · rw [hcast]
          · rw [hcast]
            exact hz'
        · simp [hlen] at hok
  · simp only [hm, if_false, Outcome.ok.injEq, Prod.mk.injEq] at hok
    obtain ⟨e1, e2⟩ := hok
    subst e1 e2
    exact ⟨rfl, rfl, rfl, rfl, Or.inl ⟨hm, rfl, rfl⟩⟩

theorem parseRequestReader_ok {proc : Process} (s : Str) (req : Request) (r : Reader)
    (hok : parseRequestReader proc s = .ok (req, r)) :
    ∃ first tail m p v h r1, s = first ++ 10 :: tail ∧ 10 ∉ first ∧
      Split (TrimSpace (first ++ [10])) 32 = [m, p, v] ∧
      headerLoop tail [] [] = some (h, r1) ∧ readBody proc m p v h r1 = .ok (req, r) := by
  by_cases hm : 10 ∈ s
  · obtain ⟨a, b, hcut⟩ := cut_mem s 10 hm
    obtain ⟨e1, e2⟩ := cut_some s 10 a b hcut
    subst e1
    rw [parseRequestReader_first a b e2] at hok
    rcases hS : Split (TrimSpace (a ++ [10])) 32 with _ | ⟨m, _ | ⟨p, _ | ⟨v, _ | ⟨d, t⟩⟩⟩⟩
    · simp [hS] at hok
    · simp [hS] at hok
    · simp [hS] at hok
    · simp only [hS] at hok
      cases hH : headerLoop b [] [] with
      | none => simp [hH] at hok
      | some q =>
        obtain ⟨h, r1⟩ := q
        simp only [hH] at hok
        exact ⟨a, b, m, p, v, h, r1, rfl, e2, hS, hH, hok⟩
    · simp [hS] at hok
  · unfold parseRequestReader at hok
    simp [ReadString_none s 10 hm] at hok

/-! # The claims -/

/-- C1: serialise-then-parse round trip for requests without a body.  For every
method other than `POST`, path and version that are non-empty and free of white
space, and every list of header pairs whose names contain no colon or newline
and whose names and values have no leading or trailing white space and no
newline, `parseRequest` on the request line, the header lines `name: value` and
the blank line (all ended by `\r\n`) succeeds and returns that method, path and
version, the map built from the pairs (a later pair wins), and an empty body. -/
theorem C1_roundtrip_bodyless (proc : Process) (m p v : Str) (pairs : List (Str × Str))
    (hm : WellFormedToken m) (hp : WellFormedToken p) (hv : WellFormedToken v)
    (hpost : m ≠ str "POST") (hh : ∀ q ∈ pairs, WellFormedHeader q) :
    parseRequest proc (serialize m p v pairs) =
      .ok { Method := m, Path := p, Version := v, Headers := mapOfPairs pairs, Body := [] } := by
  apply parseRequest_of_reader _ _ []
  have := @parseRequestReader_serialize proc m p v pairs [] hm hp hv hh
  rw [List.append_nil] at this
  rw [this]
  unfold readBody
  rw [if_neg hpost]

/-- The request `GET /x HTTP/1.1` with the header `Host: h` is parsed back. -/
theorem C1_roundtrip_bodyless_witness :
    parseRequest bareProcess (str "GET /x HTTP/1.1\r\nHost: h\r\n\r\n") =
      .ok { Method := str "GET", Path := str "/x", Version := str "HTTP/1.1",
            Headers := [(str "Host", str "h")], Body := [] } :=
  C1_roundtrip_bodyless bareProcess (str "GET") (str "/x") (str "HTTP/1.1") [(str "Host", str "h")]
    (by decide) (by decide) (by decide) (by decide) (by decide)

theorem maxAlloc_lt : maxAlloc < 2 ^ 63 := by decide

/-- C2 (as amended): body framing of a `POST`.  For every well-formed `POST`
request line and header block whose `Content-Length` value is the decimal
numeral of `n`, with `n` at most the runtime's allocation ceiling `maxAlloc`
and a buffer of `n` bytes that the process can allocate (always so for
`n = 0`), and every byte sequence `rest` of length at least `n` after the blank
line, `parseRequest` succeeds, the body is exactly the first `n` bytes of
`rest`, and the parser leaves the bytes after them unread; `n = 0` and an empty
`rest` are included. -/
theorem C2_post_body (proc : Process) (p v : Str) (pairs : List (Str × Str)) (n : Nat)
    (rest : Str)
    (hp : WellFormedToken p) (hv : WellFormedToken v) (hh : ∀ q ∈ pairs, WellFormedHeader q)
    (hcl : (mapOfPairs pairs).index (str "Content-Length") = Itoa n)
    (hn : n ≤ maxAlloc) (halloc : n = 0 ∨ proc.Alloc n = true) (hrest : n ≤ rest.length) :
    parseRequest proc (serialize (str "POST") p v pairs ++ rest) =
        .ok { Method := str "POST", Path := p, Version := v, Headers := mapOfPairs pairs,
              Body := rest.take n } ∧
      parseRequestReader proc (serialize (str "POST") p v pairs ++ rest) =
        .ok ({ Method := str "POST", Path := p, Version := v, Headers := mapOfPairs pairs,
               Body := rest.take n }, rest.drop n) := by
  have hn63 : n < 2 ^ 63 := Nat.lt_of_le_of_lt hn maxAlloc_lt
  have key : parseRequestReader proc (serialize (str "POST") p v pairs ++ rest) =
      .ok ({ Method := str "POST", Path := p, Version := v, Headers := mapOfPairs pairs,
             Body := rest.take n }, rest.drop n) := by
    have ha : Atoi ((mapOfPairs pairs).index (str "Content-Length")) = some (n : Int) := by
      rw [hcl, Atoi_Itoa n hn63]
    rw [parseRequestReader_serialize (str "POST") p v pairs rest (by decide) hp hv hh,
      readBody_post_ok p v (mapOfPairs pairs) rest (n : Int) ha (makeslice_of proc n hn halloc)
        (by rw [Int.toNat_ofNat]; exact hrest), Int.toNat_ofNat]
  exact ⟨parseRequest_of_reader _ _ _ key, key⟩

/-- The body `hello` of a `POST` with `Content-Length: 5` is read exactly, the
two bytes after it are left unread; with `Content-Length: 0` the parse succeeds
on a stream that ends after the blank line, even when nothing can be
allocated. -/
theorem C2_post_body_witness :
    parseRequestReader bareProcess
        (str "POST /files/a.txt HTTP/1.1\r\nContent-Length: 5\r\n\r\nhelloXY") =
      .ok ({ Method := str "POST", Path := str "/files/a.txt", Version := str "HTTP/1.1",
             Headers := [(str "Content-Length", str "5")], Body := str "hello" }, str "XY") ∧
    parseRequestReader ⟨[], fun _ => none, fun _ _ => false, fun _ => false⟩
        (str "POST /files/a.txt HTTP/1.1\r\nContent-Length: 0\r\n\r\n") =
      .ok ({ Method := str "POST", Path := str "/files/a.txt", Version := str "HTTP/1.1",
             Headers := [(str "Content-Length", str "0")], Body := [] }, []) :=
  ⟨(C2_post_body bareProcess (str "/files/a.txt") (str "HTTP/1.1")
      [(str "Content-Length", str "5")] 5 (str "helloXY") (by decide) (by decide) (by decide)
      (by decide) (by decide) (by decide) (by decide)).2,
   (C2_post_body ⟨[], fun _ => none, fun _ _ => false, fun _ => false⟩ (str "/files/a.txt")
      (str "HTTP/1.1") [(str "Content-Length", str "0")] 0 [] (by decide) (by decide)
      (by decide) (by decide) (by decide) (by decide) (by decide)).2⟩

/-- A `Content-Length` of `2^63` is outside the range of `int`: `Atoi` fails and
the parse returns the error of line 68, whatever follows. -/
theorem parseRequest_range {proc : Process} (rest : Str) :
    parseRequest proc (serialize (str "POST") (str "/") (str "HTTP/1.1")
        [(str "Content-Length", Itoa (2 ^ 63))] ++ rest) = .error .invalidContentLength := by
  have hb : readBody proc (str "POST") (str "/") (str "HTTP/1.1")
      (mapOfPairs [(str "Content-Length", Itoa (2 ^ 63))]) rest =
        .error .invalidContentLength := by
    unfold readBody
    rw [if_pos rfl]
    have : Atoi ((mapOfPairs [(str "Content-Length", Itoa (2 ^ 63))]).index
        (str "Content-Length")) = none := by decide
    rw [this]
  unfold parseRequest
  rw [parseRequestReader_serialize (str "POST") (str "/") (str "HTTP/1.1") _ rest
    (by decide) (by decide) (by decide) (by decide), hb]

/-- A `Content-Length` of `maxAlloc + 1` is refused by `makeslice`: the parse
ends in a panic, whatever follows and whatever memory the process has. -/
theorem parseRequest_ceiling {proc : Process} (rest : Str) :
    parseRequest proc (serialize (str "POST") (str "/") (str "HTTP/1.1")
        [(str "Content-Length", Itoa (maxAlloc + 1))] ++ rest) = .panic := by
  have hb : readBody proc (str "POST") (str "/") (str "HTTP/1.1")
      (mapOfPairs [(str "Content-Length", Itoa (maxAlloc + 1))]) rest = .panic := by
    have h1 : Atoi ((mapOfPairs [(str "Content-Length", Itoa (maxAlloc + 1))]).index
        (str "Content-Length")) = some ((maxAlloc + 1 : Nat) : Int) := by decide
    have h2 : makeslice proc ((maxAlloc + 1 : Nat) : Int) = false := by
      unfold makeslice
      have : ¬ (((maxAlloc + 1 : Nat) : Int) ≤ (maxAlloc : Int)) := by omega
      simp [this]
    exact readBody_post_panic _ _ _ _ _ h1 h2
  unfold parseRequest
  rw [parseRequestReader_serialize (str "POST") (str "/") (str "HTTP/1.1") _ rest
    (by decide) (by decide) (by decide) (by decide), hb]

/-- C2, counterexample to the claim as stated.  The request line
`POST / HTTP/1.1` and the header `Content-Length` with a decimal numeral are
well formed.  With `Content-Length: 9223372036854775808` (`n = 2^63`) the parse
fails with the invalid `Content-Length` error, on a short stream and on one with
`n` bytes after the blank line; with `Content-Length: 281474976710657`
(`maxAlloc + 1`) and that many bytes it ends in the panic of `make`; and with
`Content-Length: 5` and the five bytes `hello` it ends without a result in a
process that cannot allocate the buffer.  The process of the first three has
every allocation succeed. -/
theorem C2_counterexample :
    (WellFormedToken (str "/") ∧ WellFormedToken (str "HTTP/1.1") ∧
      WellFormedHeader (str "Content-Length", Itoa (2 ^ 63)) ∧
      WellFormedHeader (str "Content-Length", Itoa (maxAlloc + 1)) ∧
      Itoa (2 ^ 63) = str "9223372036854775808" ∧
      Itoa (maxAlloc + 1) = str "281474976710657") ∧
    parseRequest bareProcess (serialize (str "POST") (str "/") (str "HTTP/1.1")
        [(str "Content-Length", Itoa (2 ^ 63))] ++ str "abc") =
      .error .invalidContentLength ∧
    (2 ^ 63 ≤ (List.replicate (2 ^ 63) 0).length ∧
      parseRequest bareProcess (serialize (str "POST") (str "/") (str "HTTP/1.1")
          [(str "Content-Length", Itoa (2 ^ 63))] ++ List.replicate (2 ^ 63) 0) =
        .error .invalidContentLength) ∧
    (maxAlloc + 1 ≤ (List.replicate (maxAlloc + 1) 0).length ∧
      parseRequest bareProcess (serialize (str "POST") (str "/") (str "HTTP/1.1")
          [(str "Content-Length", Itoa (maxAlloc + 1))] ++ List.replicate (maxAlloc + 1) 0) =
        .panic) ∧
    parseRequest ⟨[], fun _ => none, fun _ _ => false, fun _ => false⟩
        (str "POST / HTTP/1.1\r\nContent-Length: 5\r\n\r\nhello") = .panic :=
  ⟨by decide, parseRequest_range _,
   ⟨Nat.le_of_eq (List.length_replicate _ _).symm, parseRequest_range _⟩,
   ⟨Nat.le_of_eq (List.length_replicate _ _).symm, parseRequest_ceiling _⟩,
   by decide⟩

/-- C3: for every input whose first line, after trimming surrounding white
space, splits on the single space into a number of fields other than 3,
`parseRequest` returns the invalid request line error, whatever follows. -/
theorem C3_bad_request_line (proc : Process) (line rest : Str) (hl : 10 ∉ line)
    (hn : (Split (TrimSpace line) 32).length ≠ 3) :
    parseRequest proc (line ++ 10 :: rest) = .error .invalidRequestLine := by
  unfold parseRequest
  rw [parseRequestReader_first line rest hl, TrimSpace_append_enc line [10] (by decide)]
  rcases hS : Split (TrimSpace line) 32 with _ | ⟨a, _ | ⟨b, _ | ⟨c, _ | ⟨d, t⟩⟩⟩⟩
  · rfl
  · rfl
  · rfl
  · rw [hS] at hn
    exact absurd rfl hn
  · rfl

/-- The request lines `GET /x` (2 fields) and `GET /x HTTP/1.1 extra` (4 fields)
are rejected. -/
theorem C3_bad_request_line_witness :
    parseRequest bareProcess (str "GET /x\r" ++ 10 :: str "Host: h\r\n\r\n") = .error .invalidRequestLine ∧
      parseRequest bareProcess (str "GET /x HTTP/1.1 extra\r" ++ 10 :: []) = .error .invalidRequestLine :=
  ⟨C3_bad_request_line bareProcess (str "GET /x\r") (str "Host: h\r\n\r\n") (by decide) (by decide),
   C3_bad_request_line bareProcess (str "GET /x HTTP/1.1 extra\r") [] (by decide) (by decide)⟩

theorem headersOf_entry (lines : List Str) (k : Str) :
    (headersOf lines).entry k = lastValue lines k := by
  unfold headersOf
  rw [entry_foldl lines [] k]
  cases lastValue lines k <;> rfl

theorem readBody_short {proc : Process} (m p v : Str) (h : HeaderMap) (r q : Str) (req : Request)
    (hq : q ≠ []) (hok : readBody proc m p v h (r ++ q) = .ok (req, [])) :
    readBody proc m p v h r = .error .readBody := by
  obtain ⟨_, _, _, _, hcase⟩ := readBody_ok m p v h (r ++ q) req [] hok
  rcases hcase with ⟨_, _, hr⟩ | ⟨hm, n, ha, hmk, hlen, _, hr⟩
  · have : r ++ q = [] := hr.symm
    simp at this
    exact absurd this.2 hq
  · have hq' : 0 < q.length := List.length_pos.mpr hq
    have hdrop : (r ++ q).length ≤ n := by
      have := congrArg List.length hr
      simp only [List.length_nil, List.length_drop] at this
      omega
    rw [List.length_append] at hdrop
    rw [hm]
    exact readBody_post_short p v h r (n : Int) ha hmk (by rw [Int.toNat_ofNat]; omega)

/-- C4: no partial request on truncation.  When `s` is exactly the bytes a
successful parse consumes (request line, header lines, blank line and, for a
`POST`, the `Content-Length` body bytes), `parseRequest` returns an error on
every proper initial segment of `s`. -/
theorem C4_truncation_is_error (proc : Process) (s : Str) (req : Request)
    (hok : parseRequestReader proc s = .ok (req, [])) (p : Str) (hp : p <+: s) (hne : p ≠ s) :
    ∃ e, parseRequest proc p = .error e := by
  obtain ⟨q, hq⟩ := hp
  have hqne : q ≠ [] := by
    intro h
    rw [h, List.append_nil] at hq
    exact hne hq
  obtain ⟨first, tail, m, p', v, h, r1, hs, h10, hS, hH, hB⟩ := parseRequestReader_ok s req [] hok
  unfold parseRequest
  by_cases hm : 10 ∈ p
  · obtain ⟨a, b, hcut⟩ := cut_mem p 10 hm
    obtain ⟨e1, e2⟩ := cut_some p 10 a b hcut
    subst e1
    have hs2 : cut s 10 = some (a, b ++ q) := by
      rw [← hq]
      have : a ++ 10 :: b ++ q = a ++ 10 :: (b ++ q) := by simp
      rw [this]
      exact cut_append a (b ++ q) 10 e2
    have hs3 : cut s 10 = some (first, tail) := by
      rw [hs]
      exact cut_append first tail 10 h10
    rw [hs2] at hs3
    simp only [Option.some.injEq, Prod.mk.injEq] at hs3
    obtain ⟨ea, eb⟩ := hs3
    subst ea eb
    rw [parseRequestReader_first a b e2, hS]
    simp only
    rcases headerLoop_truncate b q [] [] h r1 hH with hnone | ⟨r', hr, hsome⟩
    · rw [hnone]
      exact ⟨_, rfl⟩
    · rw [hsome]
      simp only
      subst hr
      rw [readBody_short m p' v h r' q req hqne hB]
      exact ⟨_, rfl⟩
  · unfold parseRequestReader
    rw [ReadString_none p 10 hm]
    exact ⟨_, rfl⟩

/-- A `POST` whose body is cut one byte short, and a `GET` cut before the
newline of the blank line, are errors. -/
theorem C4_truncation_is_error_witness :
    (∃ e, parseRequest bareProcess (str "POST / HTTP/1.1\r\nContent-Length: 5\r\n\r\nhell") = .error e) ∧
      (∃ e, parseRequest bareProcess (str "GET / HTTP/1.1\r\nHost: h\r\n\r") = .error e) :=
  ⟨C4_truncation_is_error bareProcess (str "POST / HTTP/1.1\r\nContent-Length: 5\r\n\r\nhello")
      { Method := str "POST", Path := str "/", Version := str "HTTP/1.1",
        Headers := [(str "Content-Length", str "5")], Body := str "hello" }
      (by decide) _ (by decide) (by decide),
   C4_truncation_is_error bareProcess (str "GET / HTTP/1.1\r\nHost: h\r\n\r\n")
      { Method := str "GET", Path := str "/", Version := str "HTTP/1.1",
        Headers := [(str "Host", str "h")], Body := [] }
      (by decide) _ (by decide) (by decide)⟩

/-- C5: a `POST` whose header block has no header named exactly
`Content-Length`, or gives it a value that is not a base-10 integer numeral, is
refused with the invalid `Content-Length` error, whatever follows the blank
line. -/
theorem C5_post_needs_content_length (proc : Process) (first : Str) (lines : List Str)
    (blank rest path version : Str) (h1 : 10 ∉ first)
    (hs : Split (TrimSpace first) 32 = [str "POST", path, version])
    (hl : HeaderLines lines) (hb : BlankLine blank)
    (hcl : ∀ x, lastValue lines (str "Content-Length") = some x → isNumeral x = false) :
    parseRequest proc (stream first lines blank rest) = .error .invalidContentLength := by
  unfold parseRequest
  rw [parseRequestReader_stream first lines blank rest h1 hl hb,
    TrimSpace_append_enc first [10] (by decide), hs]
  simp only
  unfold readBody
  rw [if_pos rfl]
  have hnone : Atoi ((headersOf lines).index (str "Content-Length")) = none := by
    unfold HeaderMap.index
    rw [headersOf_entry]
    cases hv : lastValue lines (str "Content-Length") with
    | none => decide
    | some x => exact Atoi_not_numeral x (hcl x hv)
  rw [hnone]

/-- A `POST` without `Content-Length`, one with the value `abc` and one with an
empty value are refused. -/
theorem C5_post_needs_content_length_witness :
    parseRequest bareProcess (str "POST /f HTTP/1.1\r\nHost: h\r\n\r\nbody") = .error .invalidContentLength ∧
      parseRequest bareProcess (str "POST /f HTTP/1.1\r\nContent-Length: abc\r\n\r\nbody") =
        .error .invalidContentLength ∧
      parseRequest bareProcess (str "POST /f HTTP/1.1\r\nContent-Length:\r\n\r\nbody") =
        .error .invalidContentLength :=
  ⟨C5_post_needs_content_length bareProcess (str "POST /f HTTP/1.1\r") [str "Host: h\r"] (str "\r")
      (str "body") (str "/f") (str "HTTP/1.1") (by decide) (by decide) (by decide) (by decide)
      (by decide),
   C5_post_needs_content_length bareProcess (str "POST /f HTTP/1.1\r") [str "Content-Length: abc\r"]
      (str "\r") (str "body") (str "/f") (str "HTTP/1.1") (by decide) (by decide) (by decide)
      (by decide) (by decide),
   C5_post_needs_content_length bareProcess (str "POST /f HTTP/1.1\r") [str "Content-Length:\r"]
      (str "\r") (str "body") (str "/f") (str "HTTP/1.1") (by decide) (by decide) (by decide)
      (by decide) (by decide)⟩

/-- C6 (what the code does): a `POST` whose `Content-Length` value converts to a
negative integer makes `parseRequest` panic in `make([]byte, contentLength)`;
no error is returned. -/
theorem C6_negative_length_panics (proc : Process) (first : Str) (lines : List Str)
    (blank rest path version x : Str) (z : Int) (h1 : 10 ∉ first)
    (hs : Split (TrimSpace first) 32 = [str "POST", path, version])
    (hl : HeaderLines lines) (hb : BlankLine blank)
    (hcl : lastValue lines (str "Content-Length") = some x)
    (hx : Atoi x = some z) (hz : z < 0) :
    parseRequest proc (stream first lines blank rest) = .panic := by
  unfold parseRequest
  rw [parseRequestReader_stream first lines blank rest h1 hl hb,
    TrimSpace_append_enc first [10] (by decide), hs]
  simp only
  have hsome : Atoi ((headersOf lines).index (str "Content-Length")) = some z := by
    unfold HeaderMap.index
    rw [headersOf_entry, hcl]
    exact hx
  rw [readBody_post_panic path version (headersOf lines) rest z hsome (makeslice_neg proc z hz)]

/-- The request `POST / HTTP/1.1` with `Content-Length: -1` panics. -/
theorem C6_negative_length_panics_witness :
    parseRequest bareProcess (str "POST / HTTP/1.1\r\nContent-Length: -1\r\n\r\n") = .panic :=
  C6_negative_length_panics bareProcess (str "POST / HTTP/1.1\r") [str "Content-Length: -1\r"] (str "\r")
    [] (str "/") (str "HTTP/1.1") (str "-1") (-1) (by decide) (by decide) (by decide)
    (by decide) (by decide) (by decide) (by decide)

/-- C7 (as amended): on every input on which `parseRequest` succeeds, the
returned method and version are non-empty strings. -/
theorem C7_method_version_nonempty (proc : Process) (s : Str) (req : Request)
    (hok : parseRequest proc s = .ok req) : req.Method ≠ [] ∧ req.Version ≠ [] := by
  obtain ⟨r, hr⟩ := (parseRequest_ok s req).mp hok
  obtain ⟨first, tail, m, p, v, h, r1, _, _, hS, _, hB⟩ := parseRequestReader_ok s req r hr
  obtain ⟨em, _, ev, _, _⟩ := readBody_ok m p v h r1 req r hB
  have h3 := Split_three _ 32 m p v hS
  rw [em, ev]
  constructor
  · intro hm
    rw [hm] at h3
    exact TrimSpace_head _ _ h3
  · intro hv
    rw [hv] at h3
    have : m ++ 32 :: (p ++ [32]) = (m ++ 32 :: p) ++ [32] := by simp
    rw [this] at h3
    exact TrimSpace_last _ _ h3

/-- The request `GET /x HTTP/1.1` parses, with a non-empty method and version. -/
theorem C7_method_version_nonempty_witness :
    ({ Method := str "GET", Path := str "/x", Version := str "HTTP/1.1",
       Headers := [], Body := [] } : Request).Method ≠ [] ∧
    ({ Method := str "GET", Path := str "/x", Version := str "HTTP/1.1",
       Headers := [], Body := [] } : Request).Version ≠ [] :=
  C7_method_version_nonempty bareProcess (str "GET /x HTTP/1.1\r\n\r\n") _ (by decide)

/-- C7, counterexample to the claim as stated: the request line `GET  HTTP/1.1`
(two spaces) has three fields, the parse succeeds and the path is empty. -/
theorem C7_counterexample :
    parseRequest bareProcess (str "GET  HTTP/1.1\r\n\r\n") =
      .ok { Method := str "GET", Path := [], Version := str "HTTP/1.1",
            Headers := [], Body := [] } := by
  decide

/-- C8: a header line without a colon is ignored.  For every input on which
`parseRequest` succeeds, an extra line put at a line boundary of the header
block (after the request line and any number of header lines, before the blank
line) that contains no colon and is not empty after trimming yields a successful
parse with the same request. -/
theorem C8_line_without_colon_ignored (proc : Process) (first : Str) (lines : List Str)
    (junk tail : Str)
    (req : Request) (h1 : 10 ∉ first) (hl : HeaderLines lines)
    (hj1 : 10 ∉ junk) (hj2 : 58 ∉ junk) (hj3 : TrimSpace junk ≠ [])
    (hok : parseRequest proc (first ++ 10 :: (block lines ++ tail)) = .ok req) :
    parseRequest proc (first ++ 10 :: (block lines ++ (junk ++ 10 :: tail))) = .ok req := by
  have hj4 : TrimSpace (junk ++ [10]) ≠ [] := by
    rw [TrimSpace_append_enc junk [10] (by decide)]
    exact hj3
  have hj5 : 58 ∉ junk ++ [10] := by simpa using hj2
  have hloop : headerLoop (block lines ++ (junk ++ 10 :: tail)) [] [] =
      headerLoop (block lines ++ tail) [] [] := by
    rw [headerLoop_block lines _ [] hl, headerLoop_block lines _ [] hl,
      headerLoop_line junk tail [] _ hj1]
    simp only [List.nil_append, hj4, if_false]
    rw [storeHeader_no_colon _ _ hj5]
  unfold parseRequest at hok ⊢
  rw [parseRequestReader_first first _ h1] at hok ⊢
  rw [hloop]
  exact hok

/-- The line `junkline` between the request line and `Host: h` changes nothing. -/
theorem C8_line_without_colon_ignored_witness :
    parseRequest bareProcess (str "GET / HTTP/1.1\r\njunkline\r\nHost: h\r\n\r\n") =
      .ok { Method := str "GET", Path := str "/", Version := str "HTTP/1.1",
            Headers := [(str "Host", str "h")], Body := [] } :=
  C8_line_without_colon_ignored bareProcess (str "GET / HTTP/1.1\r") [] (str "junkline\r")
    (str "Host: h\r\n\r\n") _ (by decide) (by decide) (by decide) (by decide) (by decide)
    (by decide)

theorem HeaderLines_colon (pre post : List Str) (a b : Str) (hpre : HeaderLines pre)
    (hpost : HeaderLines post) (ha10 : 10 ∉ a) (hb10 : 10 ∉ b) :
    HeaderLines (pre ++ (a ++ 58 :: b) :: post) := by
  intro l hmem
  rcases List.mem_append.mp hmem with h | h
  · exact hpre l h
  · rcases List.mem_cons.mp h with h | h
    · subst h
      constructor
      · simp [ha10, hb10]
      · have : a ++ 58 :: b ++ [10] = a ++ 58 :: (b ++ [10]) := by simp
        rw [this]
        exact TrimSpace_colon_ne_nil _ _
    · exact hpost l h

theorem headersOf_colon (pre : List Str) (a b : Str) (ha : 58 ∉ a) :
    headersOf (pre ++ [a ++ 58 :: b]) = (headersOf pre).assign (TrimSpace a) (TrimSpace b) := by
  unfold headersOf
  rw [List.foldl_append, List.foldl_cons, List.foldl_nil, storeHeader_line, headerField,
    cut_append a b 58 ha]

theorem lastValue_colon (pre post : List Str) (a b : Str) (ha : 58 ∉ a)
    (hlast : lastValue post (TrimSpace a) = none) :
    lastValue (pre ++ (a ++ 58 :: b) :: post) (TrimSpace a) = some (TrimSpace b) := by
  induction pre with
  | nil =>
    rw [List.nil_append, lastValue, hlast, headerField, cut_append a b 58 ha]
    simp
  | cons l ls ih =>
    rw [List.cons_append, lastValue, ih]

theorem readBody_other {proc : Process} (m p v : Str) (h : HeaderMap) (r : Reader)
    (hm : m ≠ str "POST") :
    readBody proc m p v h r =
      .ok ({ Method := m, Path := p, Version := v, Headers := h, Body := [] }, r) := by
  unfold readBody
  rw [if_neg hm]

/-- C9: header lines are split on the first colon only.  Take any header line
that contains a colon (it is then non-empty after trimming), with `a` the text
before its first colon and `b` all of the text after it, further colons
included, after the header lines `pre` and before the header lines `post` and
the blank line.  The header loop returns the map built from all these lines and
leaves `rest` unread; with the line as the last one, that map is the map of
`pre` with the trimmed `b` assigned to the key trimmed `a`; with no later line of
that name, the returned map holds the trimmed `b` under the trimmed `a`; every
request parsed from a stream with this header block has that map as its
`Headers`, and with a three-field request line whose method is not `POST` the
parse succeeds with it. -/
theorem C9_split_on_first_colon (proc : Process) (pre post : List Str) (a b blank rest : Str)
    (hpre : HeaderLines pre) (hpost : HeaderLines post) (hb : BlankLine blank)
    (ha : 58 ∉ a) (ha10 : 10 ∉ a) (hb10 : 10 ∉ b) :
    headerLoop (block (pre ++ [a ++ 58 :: b]) ++ (blank ++ 10 :: rest)) [] [] =
        some ((headersOf pre).assign (TrimSpace a) (TrimSpace b), rest) ∧
      headerLoop (block (pre ++ (a ++ 58 :: b) :: post) ++ (blank ++ 10 :: rest)) [] [] =
        some (headersOf (pre ++ (a ++ 58 :: b) :: post), rest) ∧
      (lastValue post (TrimSpace a) = none →
        (headersOf (pre ++ (a ++ 58 :: b) :: post)).entry (TrimSpace a) =
          some (TrimSpace b)) ∧
      (∀ first req, 10 ∉ first →
        parseRequest proc (stream first (pre ++ (a ++ 58 :: b) :: post) blank rest) = .ok req →
        req.Headers = headersOf (pre ++ (a ++ 58 :: b) :: post)) ∧
      (∀ first m p v, 10 ∉ first → Split (TrimSpace first) 32 = [m, p, v] → m ≠ str "POST" →
        parseRequest proc (stream first (pre ++ (a ++ 58 :: b) :: post) blank rest) =
          .ok { Method := m, Path := p, Version := v,
                Headers := headersOf (pre ++ (a ++ 58 :: b) :: post), Body := [] }) := by
  have hall := HeaderLines_colon pre post a b hpre hpost ha10 hb10
  have hone := HeaderLines_colon pre [] a b hpre (fun _ h => absurd h (List.not_mem_nil _))
    ha10 hb10
  refine ⟨?_, ?_, ?_, ?_, ?_⟩
  · exact ((headerLoop_block _ _ [] hone).trans (headerLoop_blank blank rest _ hb.1 hb.2)).trans
      (congrArg (fun h => some (h, rest)) (headersOf_colon pre a b ha))
  · exact (headerLoop_block _ _ [] hall).trans (headerLoop_blank blank rest _ hb.1 hb.2)
  · intro hlast
    rw [headersOf_entry, lastValue_colon pre post a b ha hlast]
  · intro first req h1 hok
    obtain ⟨r, hr⟩ := (parseRequest_ok _ req).mp hok
    rw [parseRequestReader_stream first _ blank rest h1 hall hb] at hr
    rcases hS : Split (TrimSpace (first ++ [10])) 32 with _ | ⟨m, _ | ⟨p, _ | ⟨v, _ | ⟨d, t⟩⟩⟩⟩
    · simp [hS] at hr
    · simp [hS] at hr
    · simp [hS] at hr
    · simp only [hS] at hr
      obtain ⟨_, _, _, eh, _⟩ := readBody_ok m p v _ rest req r hr
      exact eh
    · simp [hS] at hr
  · intro first m p v h1 hs hm
    apply parseRequest_of_reader _ _ rest
    rw [parseRequestReader_stream first _ blank rest h1 hall hb,
      TrimSpace_append_enc first [10] (by decide), hs]
    exact readBody_other m p v _ rest hm

/-- The line `Host:  a:b:c ` stores the value `a:b:c` under the key `Host`: the
loop returns the map with that one entry, and the request
`GET / HTTP/1.1` with this header line parses with it. -/
theorem C9_split_on_first_colon_witness :
    headerLoop (str "Host:  a:b:c \r\n\r\n") [] [] =
        some ([(str "Host", str "a:b:c")], []) ∧
      parseRequest bareProcess (str "GET / HTTP/1.1\r\nHost:  a:b:c \r\n\r\n") =
        .ok { Method := str "GET", Path := str "/", Version := str "HTTP/1.1",
              Headers := [(str "Host", str "a:b:c")], Body := [] } :=
  have h := C9_split_on_first_colon bareProcess [] [] (str "Host") (str "  a:b:c \r") (str "\r") []
    (by decide) (by decide) (by decide) (by decide) (by decide) (by decide)
  ⟨h.1, h.2.2.2.2 (str "GET / HTTP/1.1\r") (str "GET") (str "/") (str "HTTP/1.1") (by decide)
    (by decide) (by decide)⟩

theorem lastValue_present (lines : List Str) (l : Str) (name value : Str) (hl : l ∈ lines)
    (hf : headerField l = some (name, value)) : ∃ x, lastValue lines name = some x := by
  induction lines with
  | nil => simp at hl
  | cons a t ih =>
    unfold lastValue
    cases ht : lastValue t name with
    | some x => exact ⟨x, rfl⟩
    | none =>
      rcases List.mem_cons.mp hl with h | h
      · subst h
        simp [hf]
      · obtain ⟨x, hx⟩ := ih h
        rw [hx] at ht
        exact absurd ht (by simp)

/-- C10: last value wins, case-sensitively.  For every successfully parsed
request and every key `k`, the header map holds under `k` the trimmed value of
the last header line before the blank line whose trimmed name is exactly `k`,
and holds nothing under `k` when there is no such line; every header line has
an entry under its own exact name, so lines whose names differ (if only in
letter case) give distinct entries. -/
theorem C10_last_value_wins (proc : Process) (first : Str) (lines : List Str) (blank rest : Str)
    (req : Request) (h1 : 10 ∉ first) (hl : HeaderLines lines) (hb : BlankLine blank)
    (hok : parseRequest proc (stream first lines blank rest) = .ok req) :
    (∀ k, req.Headers.entry k = lastValue lines k) ∧
      (∀ l ∈ lines, ∀ name value, headerField l = some (name, value) →
        ∃ x, req.Headers.entry name = some x) := by
  have key : ∀ k, req.Headers.entry k = lastValue lines k := by
    intro k
    obtain ⟨r, hr⟩ := (parseRequest_ok _ req).mp hok
    rw [parseRequestReader_stream first lines blank rest h1 hl hb] at hr
    rcases hS : Split (TrimSpace (first ++ [10])) 32 with _ | ⟨m, _ | ⟨p, _ | ⟨v, _ | ⟨d, t⟩⟩⟩⟩
    · simp [hS] at hr
    · simp [hS] at hr
    · simp [hS] at hr
    · simp only [hS] at hr
      obtain ⟨_, _, _, eh, _⟩ := readBody_ok m p v _ rest req r hr
      rw [eh, headersOf_entry]
    · simp [hS] at hr
  refine ⟨key, ?_⟩
  intro l hmem name value hf
  rw [key]
  exact lastValue_present lines l name value hmem hf

/-- With the lines `Host: a`, `host: b`, `Host: c` the key `Host` holds `c`, the
key `host` holds `b` and the key `HOST` holds nothing. -/
theorem C10_last_value_wins_witness :
    HeaderMap.entry [(str "Host", str "c"), (str "host", str "b")] (str "Host") =
        some (str "c") ∧
      HeaderMap.entry [(str "Host", str "c"), (str "host", str "b")] (str "host") =
        some (str "b") ∧
      HeaderMap.entry [(str "Host", str "c"), (str "host", str "b")] (str "HOST") = none :=
  have h := (C10_last_value_wins bareProcess (str "GET / HTTP/1.1\r")
    [str "Host: a\r", str "host: b\r", str "Host: c\r"] (str "\r") []
    (Request.mk (str "GET") (str "/") (str "HTTP/1.1")
      [(str "Host", str "c"), (str "host", str "b")] [])
    (by decide) (by decide) (by decide) (by decide)).1
  ⟨h (str "Host"), h (str "host"), h (str "HOST")⟩

/-! ## Lemmas: `handleConnection` -/

theorem str_echo : str "/echo/" = [47, 101, 99, 104, 111, 47] := by decide
theorem str_user_agent :
    str "/user-agent" = [47, 117, 115, 101, 114, 45, 97, 103, 101, 110, 116] := by decide
theorem str_files : str "/files/" = [47, 102, 105, 108, 101, 115, 47] := by decide

/-- A path that starts with `/user-agent` does not start with `/echo/`. -/
theorem HasPrefix_user_agent_echo (path : Str)
    (h : HasPrefix path (str "/user-agent") = true) : HasPrefix path (str "/echo/") = false := by
  rw [HasPrefix, str_user_agent] at h
  rw [HasPrefix, str_echo]
  rcases path with _ | ⟨a, _ | ⟨b, t⟩⟩
  · simp [List.isPrefixOf] at h
  · simp [List.isPrefixOf] at h
  · simp only [List.isPrefixOf, Bool.and_eq_true, beq_iff_eq] at h
    obtain ⟨_, hb, _⟩ := h
    have : (101 == b) = false := by
      rw [beq_eq_false_iff_ne]
      omega
    simp [List.isPrefixOf, this]

/-- A path that starts with `/files/` starts neither with `/echo/` nor with
`/user-agent`, and is not `/`. -/
theorem HasPrefix_files_other (path : Str) (h : HasPrefix path (str "/files/") = true) :
    HasPrefix path (str "/echo/") = false ∧ HasPrefix path (str "/user-agent") = false ∧
      path ≠ str "/" := by
  rw [HasPrefix, str_files] at h
  rw [HasPrefix, HasPrefix, str_echo, str_user_agent]
  rcases path with _ | ⟨a, _ | ⟨b, t⟩⟩
  · simp [List.isPrefixOf] at h
  · simp [List.isPrefixOf] at h
  · simp only [List.isPrefixOf, Bool.and_eq_true, beq_iff_eq] at h
    obtain ⟨_, hb, _⟩ := h
    have h1 : (101 == b) = false := by
      rw [beq_eq_false_iff_ne]
      omega
    have h2 : (117 == b) = false := by
      rw [beq_eq_false_iff_ne]
      omega
    refine ⟨by simp [List.isPrefixOf, h1], by simp [List.isPrefixOf, h2], ?_⟩
    intro hh
    have := congrArg List.length hh
    simp [str] at this

theorem handleConnection_error (proc : Process) (conn : List Nat) (e : ParseError)
    (herr : parseRequest proc conn = .error e) :
    handleConnection proc conn = .written [str "HTTP/1.1 400 Bad Request\r\n\r\n"] := by
  unfold handleConnection
  simp only [herr]

theorem handleConnection_panic (proc : Process) (conn : List Nat)
    (hp : parseRequest proc conn = .panic) : handleConnection proc conn = .panic := by
  unfold handleConnection
  simp only [hp]

/-- The echo route (lines 93-103). -/
theorem handleConnection_echo (proc : Process) (conn : List Nat) (req : Request) (seg : Str)
    (hok : parseRequest proc conn = .ok req) (hecho : HasPrefix req.Path (str "/echo/") = true)
    (hseg : (Split req.Path 47).getLast? = some seg) :
    handleConnection proc conn = .written [textPlain seg.length seg] := by
  unfold handleConnection
  simp only [hok, hecho, hseg, if_true]

/-- The user-agent route (lines 105-113). -/
theorem handleConnection_user_agent (proc : Process) (conn : List Nat) (req : Request)
    (hok : parseRequest proc conn = .ok req) (hecho : HasPrefix req.Path (str "/echo/") = false)
    (hua : HasPrefix req.Path (str "/user-agent") = true) :
    handleConnection proc conn =
      .written [textPlain (req.Headers.index (str "User-Agent")).length
        (req.Headers.index (str "User-Agent"))] := by
  unfold handleConnection
  simp only [hok, hecho, hua, if_true, if_false, Bool.false_eq_true]

/-- No route matches (lines 142-149). -/
theorem handleConnection_fallback (proc : Process) (conn : List Nat) (req : Request)
    (hok : parseRequest proc conn = .ok req) (hecho : HasPrefix req.Path (str "/echo/") = false)
    (hua : HasPrefix req.Path (str "/user-agent") = false)
    (hfiles : HasPrefix req.Path (str "/files/") = false) :
    handleConnection proc conn = fallback req := by
  unfold handleConnection
  simp only [hok, hecho, hua, hfiles, if_false, Bool.false_eq_true]

/-- The files route without `os.Args[2]` (line 117). -/
theorem handleConnection_files_panic (proc : Process) (conn : List Nat) (req : Request)
    (hok : parseRequest proc conn = .ok req) (hfiles : HasPrefix req.Path (str "/files/") = true)
    (hargs : proc.Args.get? 2 = none) : handleConnection proc conn = .panic := by
  obtain ⟨hecho, hua, _⟩ := HasPrefix_files_other req.Path hfiles
  unfold handleConnection
  simp only [hok, hecho, hua, hfiles, hargs, if_true, if_false, Bool.false_eq_true]

/-- The files route for `GET` with a readable file (lines 120-129). -/
theorem handleConnection_files_get (proc : Process) (conn : List Nat) (req : Request)
    (directory data : Str)
    (hok : parseRequest proc conn = .ok req) (hfiles : HasPrefix req.Path (str "/files/") = true)
    (hargs : proc.Args.get? 2 = some directory) (hget : req.Method = str "GET")
    (hread : proc.ReadFile (directory ++ TrimPrefix req.Path (str "/files/")) = some data) :
    handleConnection proc conn =
      .written [str "HTTP/1.1 200 OK\r\nContent-Type: application/octet-stream\r\nContent-Length: "
        ++ Itoa data.length ++ str "\r\n\r\n" ++ data ++ str "\r\n\r\n"] := by
  obtain ⟨hecho, hua, _⟩ := HasPrefix_files_other req.Path hfiles
  unfold handleConnection
  simp only [hok, hecho, hua, hfiles, hargs, hget, hread, if_true, if_false,
    Bool.false_eq_true]

/-- The files route for `GET` when the file cannot be read. -/
theorem handleConnection_files_get_error (proc : Process) (conn : List Nat) (req : Request)
    (directory : Str)
    (hok : parseRequest proc conn = .ok req) (hfiles : HasPrefix req.Path (str "/files/") = true)
    (hargs : proc.Args.get? 2 = some directory) (hget : req.Method = str "GET")
    (hread : proc.ReadFile (directory ++ TrimPrefix req.Path (str "/files/")) = none) :
    handleConnection proc conn = .written [str "HTTP/1.1 404 Not Found\r\n\r\n"] := by
  obtain ⟨hecho, hua, _⟩ := HasPrefix_files_other req.Path hfiles
  unfold handleConnection
  simp only [hok, hecho, hua, hfiles, hargs, hget, hread, if_true, if_false,
    Bool.false_eq_true]

/-- The files route for `POST` (lines 130-138). -/
theorem handleConnection_files_post (proc : Process) (conn : List Nat) (req : Request)
    (directory : Str)
    (hok : parseRequest proc conn = .ok req) (hfiles : HasPrefix req.Path (str "/files/") = true)
    (hargs : proc.Args.get? 2 = some directory) (hpost : req.Method = str "POST") :
    handleConnection proc conn =
      if proc.WriteFile (directory ++ TrimPrefix req.Path (str "/files/")) req.Body then
        .written [str "HTTP/1.1 201 Created\r\n\r\n"]
      else .written [str "HTTP/1.1 500 Internal Server Error\r\n\r\n"] := by
  obtain ⟨hecho, hua, _⟩ := HasPrefix_files_other req.Path hfiles
  have hne : str "POST" ≠ str "GET" := by decide
  unfold handleConnection
  simp only [hok, hecho, hua, hfiles, hargs, hpost, hne, if_true, if_false,
    Bool.false_eq_true]

/-- The files route for any other method: the request falls through to the
`404 Not Found` of line 149. -/
theorem handleConnection_files_other (proc : Process) (conn : List Nat) (req : Request)
    (directory : Str)
    (hok : parseRequest proc conn = .ok req) (hfiles : HasPrefix req.Path (str "/files/") = true)
    (hargs : proc.Args.get? 2 = some directory) (hget : req.Method ≠ str "GET")
    (hpost : req.Method ≠ str "POST") :
    handleConnection proc conn = .written [str "HTTP/1.1 404 Not Found\r\n\r\n"] := by
  obtain ⟨hecho, hua, hroot⟩ := HasPrefix_files_other req.Path hfiles
  unfold handleConnection
  simp only [hok, hecho, hua, hfiles, hargs, hget, hpost, fallback, hroot, if_true, if_false,
    Bool.false_eq_true]

/-! # The claims, continued -/

/-- C11: a body is read only for `POST`.  For every request whose method is not
exactly `POST`, a parse that gets past the blank line succeeds with an empty
body and leaves every byte after the blank line unread, whatever the header
lines (with or without a `Content-Length`, valid or not) and whatever bytes
follow. -/
theorem C11_body_only_for_post (proc : Process) (first : Str) (lines : List Str)
    (blank rest m p v : Str)
    (h1 : 10 ∉ first) (hs : Split (TrimSpace first) 32 = [m, p, v]) (hm : m ≠ str "POST")
    (hl : HeaderLines lines) (hb : BlankLine blank) :
    parseRequest proc (stream first lines blank rest) =
        .ok { Method := m, Path := p, Version := v, Headers := headersOf lines, Body := [] } ∧
      parseRequestReader proc (stream first lines blank rest) =
        .ok ({ Method := m, Path := p, Version := v, Headers := headersOf lines, Body := [] },
          rest) := by
  have key : parseRequestReader proc (stream first lines blank rest) =
      .ok ({ Method := m, Path := p, Version := v, Headers := headersOf lines, Body := [] },
        rest) := by
    rw [parseRequestReader_stream first lines blank rest h1 hl hb,
      TrimSpace_append_enc first [10] (by decide), hs]
    simp only
    unfold readBody
    rw [if_neg hm]
  exact ⟨parseRequest_of_reader _ _ _ key, key⟩

/-- A `GET` with `Content-Length: 5` and a lower-case `post` with an invalid
`Content-Length` both parse with an empty body, the following bytes unread. -/
theorem C11_body_only_for_post_witness :
    parseRequestReader bareProcess (str "GET /x HTTP/1.1\r\nContent-Length: 5\r\n\r\nhello") =
        .ok ({ Method := str "GET", Path := str "/x", Version := str "HTTP/1.1",
               Headers := [(str "Content-Length", str "5")], Body := [] }, str "hello") ∧
      parseRequestReader bareProcess (str "post /x HTTP/1.1\r\nContent-Length: abc\r\n\r\n") =
        .ok ({ Method := str "post", Path := str "/x", Version := str "HTTP/1.1",
               Headers := [(str "Content-Length", str "abc")], Body := [] }, []) :=
  ⟨(C11_body_only_for_post bareProcess (str "GET /x HTTP/1.1\r") [str "Content-Length: 5\r"] (str "\r")
      (str "hello") (str "GET") (str "/x") (str "HTTP/1.1") (by decide) (by decide) (by decide)
      (by decide) (by decide)).2,
   (C11_body_only_for_post bareProcess (str "post /x HTTP/1.1\r") [str "Content-Length: abc\r"] (str "\r")
      [] (str "post") (str "/x") (str "HTTP/1.1") (by decide) (by decide) (by decide)
      (by decide) (by decide)).2⟩

/-- C12: for every input on which `parseRequest` returns an error,
`handleConnection` makes one write, of exactly `HTTP/1.1 400 Bad Request`
followed by a blank line. -/
theorem C12_parse_error_is_400 (proc : Process) (conn : List Nat) (e : ParseError)
    (herr : parseRequest proc conn = .error e) :
    handleConnection proc conn = .written [str "HTTP/1.1 400 Bad Request\r\n\r\n"] :=
  handleConnection_error proc conn e herr

/-- A stream that ends right after the request line is answered with 400. -/
theorem C12_parse_error_is_400_witness :
    handleConnection bareProcess (str "GET / HTTP/1.1\r\n") =
      .written [str "HTTP/1.1 400 Bad Request\r\n\r\n"] :=
  C12_parse_error_is_400 bareProcess (str "GET / HTTP/1.1\r\n")
    .readHeaderLine (by decide)

/-- C13 (what the code does): for the path `/echo/a/b` the response echoes `b`,
the text after the last `/`, with `Content-Length: 1`, not the text `a/b` that
follows `/echo/`. -/
theorem C13_echo_nested_path (proc : Process) :
    handleConnection proc (str "GET /echo/a/b HTTP/1.1\r\n\r\n") =
      .written [str "HTTP/1.1 200 OK\r\nContent-Type: text/plain\r\nContent-Length: 1\r\n\r\nb"] :=
  rfl

/-- C19: user-agent route.  For every successfully parsed request whose path
starts with `/user-agent` (such a path does not start with `/echo/`), the
response is one write of the `200 OK` text response whose body `u` is the value
stored under the exact key `User-Agent`, the empty string when no header has
exactly that name, and whose `Content-Length` is the byte length of `u`. -/
theorem C19_user_agent_route (proc : Process) (conn : List Nat) (req : Request)
    (hok : parseRequest proc conn = .ok req)
    (hua : HasPrefix req.Path (str "/user-agent") = true) :
    HasPrefix req.Path (str "/echo/") = false ∧
      handleConnection proc conn =
        .written [str "HTTP/1.1 200 OK\r\nContent-Type: text/plain\r\nContent-Length: " ++
          Itoa (match req.Headers.entry (str "User-Agent") with
            | some u => u
            | none => []).length ++
          str "\r\n\r\n" ++
          (match req.Headers.entry (str "User-Agent") with
            | some u => u
            | none => [])] := by
  have hecho := HasPrefix_user_agent_echo req.Path hua
  refine ⟨hecho, ?_⟩
  rw [handleConnection_user_agent proc conn req hok hecho hua]
  rfl

/-- A `User-Agent: curl/8` header is reflected with `Content-Length: 6`; sent as
`user-agent` it is not, the body is empty. -/
theorem C19_user_agent_route_witness :
    handleConnection bareProcess
        (str "GET /user-agent HTTP/1.1\r\nUser-Agent: curl/8\r\n\r\n") =
      .written [str
        "HTTP/1.1 200 OK\r\nContent-Type: text/plain\r\nContent-Length: 6\r\n\r\ncurl/8"] ∧
    handleConnection bareProcess
        (str "GET /user-agent HTTP/1.1\r\nuser-agent: curl/8\r\n\r\n") =
      .written [str "HTTP/1.1 200 OK\r\nContent-Type: text/plain\r\nContent-Length: 0\r\n\r\n"] :=
  ⟨(C19_user_agent_route bareProcess
      (str "GET /user-agent HTTP/1.1\r\nUser-Agent: curl/8\r\n\r\n")
      (Request.mk (str "GET") (str "/user-agent") (str "HTTP/1.1")
        [(str "User-Agent", str "curl/8")] []) (by decide) (by decide)).2,
   (C19_user_agent_route bareProcess
      (str "GET /user-agent HTTP/1.1\r\nuser-agent: curl/8\r\n\r\n")
      (Request.mk (str "GET") (str "/user-agent") (str "HTTP/1.1")
        [(str "user-agent", str "curl/8")] []) (by decide) (by decide)).2⟩

/-! ## Lemmas: the last field of `Split` -/

theorem getLast?_cons_some (a x : Str) (l : List Str) (h : l.getLast? = some x) :
    (a :: l).getLast? = some x := by
  cases l with
  | nil => simp at h
  | cons b r => rw [List.getLast?_cons_cons]; exact h

theorem Split_length (s : Str) (sep : Nat) : (Split s sep).length = s.count sep + 1 := by
  induction s with
  | nil => rfl
  | cons c t ih =>
    unfold Split
    by_cases hc : c = sep
    · rw [if_pos hc, List.length_cons, ih, hc, List.count_cons_self]
    · rw [if_neg hc, List.count_cons_of_ne (fun hh => hc hh.symm)]
      cases hS : Split t sep with
      | nil => exact absurd hS (Split_ne_nil t sep)
      | cons a r =>
        rw [hS] at ih
        simpa using ih

/-- The last field of `Split` is free of the separator and is the whole string
or the text after its last separator. -/
theorem Split_getLast (s : Str) (sep : Nat) :
    ∃ seg, (Split s sep).getLast? = some seg ∧ sep ∉ seg ∧
      ((sep ∉ s ∧ s = seg) ∨ ∃ pre, s = pre ++ sep :: seg) := by
  induction s with
  | nil => exact ⟨[], rfl, by simp, Or.inl ⟨by simp, rfl⟩⟩
  | cons c t ih =>
    obtain ⟨seg, h1, h2, h3⟩ := ih
    have hne := Split_ne_nil t sep
    by_cases hc : c = sep
    · refine ⟨seg, ?_, h2, Or.inr ?_⟩
      · unfold Split
        rw [if_pos hc]
        exact getLast?_cons_some _ _ _ h1
      · rcases h3 with ⟨_, h4⟩ | ⟨pre, h4⟩
        · exact ⟨[], by rw [h4, hc]; rfl⟩
        · exact ⟨c :: pre, by rw [h4]; rfl⟩
    · rcases h3 with ⟨h5, h4⟩ | ⟨pre, h4⟩
      · refine ⟨c :: seg, ?_, ?_, Or.inl ⟨?_, by rw [h4]⟩⟩
        · unfold Split
          rw [if_neg hc, Split_not_mem t sep h5, h4]
          rfl
        · simp only [List.mem_cons, not_or]
          exact ⟨fun hh => hc hh.symm, h2⟩
        · simp only [List.mem_cons, not_or]
          exact ⟨fun hh => hc hh.symm, h5⟩
      · refine ⟨seg, ?_, h2, Or.inr ⟨c :: pre, by rw [h4]; rfl⟩⟩
        have hlen := Split_length t sep
        have hmem : sep ∈ t := by rw [h4]; simp
        have hcount : 0 < t.count sep := List.count_pos_iff.mpr hmem
        unfold Split
        rw [if_neg hc]
        rcases hS : Split t sep with _ | ⟨a, _ | ⟨b, r⟩⟩
        · exact absurd hS hne
        · rw [hS] at hlen
          simp at hlen
          omega
        · rw [hS] at h1
          simp only [List.getLast?_cons_cons] at h1 ⊢
          exact h1

/-- The text after the last separator is determined by the string. -/
theorem last_segment_unique (x y a b : Str) (sep : Nat) (h : x ++ sep :: a = y ++ sep :: b)
    (ha : sep ∉ a) (hb : sep ∉ b) : a = b := by
  have hr := congrArg List.reverse h
  simp only [List.reverse_append, List.reverse_cons, List.append_assoc,
    List.singleton_append] at hr
  have h1 := cut_append a.reverse x.reverse sep (by simpa using ha)
  have h2 := cut_append b.reverse y.reverse sep (by simpa using hb)
  rw [hr, h2] at h1
  simp only [Option.some.injEq, Prod.mk.injEq] at h1
  exact (List.reverse_injective h1.1).symm

theorem HasPrefix_append (pre s : Str) : HasPrefix (pre ++ s) pre = true := by
  unfold HasPrefix
  exact List.isPrefixOf_iff_prefix.mpr (List.prefix_append pre s)

/-- C18: for every successfully parsed request whose path starts with `/echo/`,
the echoed body is the final `/`-separated segment of the path, the text after
its last `/`: it contains no `/`, the `Content-Length` written is its byte
length, and it equals the text after `/echo/` exactly when that text contains
no `/`. -/
theorem C18_echo_last_segment (proc : Process) (conn : List Nat) (req : Request) (s : Str)
    (hok : parseRequest proc conn = .ok req) (hpath : req.Path = str "/echo/" ++ s) :
    ∃ seg, (∃ pre, req.Path = pre ++ 47 :: seg) ∧ 47 ∉ seg ∧
      handleConnection proc conn = .written [textPlain seg.length seg] ∧
      (seg = s ↔ 47 ∉ s) := by
  have hecho : HasPrefix req.Path (str "/echo/") = true := by
    rw [hpath]
    exact HasPrefix_append _ _
  have hform : req.Path = str "/echo" ++ 47 :: s := by
    rw [hpath]
    rfl
  obtain ⟨seg, h1, h2, h3⟩ := Split_getLast req.Path 47
  have hpre : ∃ pre, req.Path = pre ++ 47 :: seg := by
    rcases h3 with ⟨h4, _⟩ | h4
    · exact absurd (by rw [hform]; simp) h4
    · exact h4
  refine ⟨seg, hpre, h2, handleConnection_echo proc conn req seg hok hecho h1, ?_⟩
  constructor
  · intro h
    rw [← h]
    exact h2
  · intro hs
    obtain ⟨pre, hp⟩ := hpre
    rw [hform] at hp
    exact (last_segment_unique _ _ _ _ 47 hp hs h2).symm

/-- The path `/echo/abc` is answered with the body `abc`, the path `/echo/a/b`
with the body `b`. -/
theorem C18_echo_last_segment_witness :
    (∃ seg, (∃ pre, str "/echo/abc" = pre ++ 47 :: seg) ∧ 47 ∉ seg ∧
      handleConnection bareProcess
          (str "GET /echo/abc HTTP/1.1\r\n\r\n") = .written [textPlain seg.length seg] ∧
      (seg = str "abc" ↔ 47 ∉ str "abc")) ∧
    (∃ seg, (∃ pre, str "/echo/a/b" = pre ++ 47 :: seg) ∧ 47 ∉ seg ∧
      handleConnection bareProcess
          (str "GET /echo/a/b HTTP/1.1\r\n\r\n") = .written [textPlain seg.length seg] ∧
      (seg = str "a/b" ↔ 47 ∉ str "a/b")) :=
  ⟨C18_echo_last_segment bareProcess
      (str "GET /echo/abc HTTP/1.1\r\n\r\n")
      (Request.mk (str "GET") (str "/echo/abc") (str "HTTP/1.1") [] []) (str "abc")
      (by decide) (by decide),
   C18_echo_last_segment bareProcess
      (str "GET /echo/a/b HTTP/1.1\r\n\r\n")
      (Request.mk (str "GET") (str "/echo/a/b") (str "HTTP/1.1") [] []) (str "a/b")
      (by decide) (by decide)⟩

/-! ## Lemmas: status lines -/

theorem hasStatus_append (status rest : Str) :
    hasStatus ((status ++ str "\r\n") ++ rest) status = true := by
  unfold hasStatus
  exact List.isPrefixOf_iff_prefix.mpr (List.prefix_append _ _)

theorem textPlain_status (n : Nat) (body : Str) :
    textPlain n body ≠ [] ∧ hasStatus (textPlain n body) (str "HTTP/1.1 200 OK") = true := by
  have hL : str "HTTP/1.1 200 OK\r\nContent-Type: text/plain\r\nContent-Length: " =
      (str "HTTP/1.1 200 OK" ++ str "\r\n") ++
        str "Content-Type: text/plain\r\nContent-Length: " := by decide
  unfold textPlain
  rw [hL]
  constructor
  · intro h
    have := congrArg List.length h
    simp [str] at this
  · simp only [List.append_assoc]
    rw [← List.append_assoc (str "HTTP/1.1 200 OK")]
    exact hasStatus_append _ _

theorem fileResponse_status (data : Str) :
    str "HTTP/1.1 200 OK\r\nContent-Type: application/octet-stream\r\nContent-Length: " ++
        Itoa data.length ++ str "\r\n\r\n" ++ data ++ str "\r\n\r\n" ≠ [] ∧
      hasStatus (str "HTTP/1.1 200 OK\r\nContent-Type: application/octet-stream\r\nContent-Length: "
        ++ Itoa data.length ++ str "\r\n\r\n" ++ data ++ str "\r\n\r\n")
        (str "HTTP/1.1 200 OK") = true := by
  have hL : str "HTTP/1.1 200 OK\r\nContent-Type: application/octet-stream\r\nContent-Length: " =
      (str "HTTP/1.1 200 OK" ++ str "\r\n") ++
        str "Content-Type: application/octet-stream\r\nContent-Length: " := by decide
  rw [hL]
  constructor
  · intro h
    have := congrArg List.length h
    simp [str] at this
  · simp only [List.append_assoc]
    rw [← List.append_assoc (str "HTTP/1.1 200 OK")]
    exact hasStatus_append _ _

/-- Every response `handleConnection` can write is non-empty and starts with one
of the five status lines. -/
theorem handleConnection_written (proc : Process) (conn : List Nat)
    (hp : parseRequest proc conn ≠ .panic)
    (hargs : ∀ req, parseRequest proc conn = .ok req →
      HasPrefix req.Path (str "/files/") = true → 2 < proc.Args.length) :
    ∃ w status, handleConnection proc conn = .written [w] ∧ w ≠ [] ∧
      status ∈ statusLines ∧ hasStatus w status = true := by
  cases hparse : parseRequest proc conn with
  | panic => exact absurd hparse hp
  | error e =>
    exact ⟨_, str "HTTP/1.1 400 Bad Request", handleConnection_error proc conn e hparse,
      by decide, by decide, by decide⟩
  | ok req =>
    have h200 : str "HTTP/1.1 200 OK" ∈ statusLines := by decide
    have h404 : ∃ w status, Handled.written [str "HTTP/1.1 404 Not Found\r\n\r\n"] =
        .written [w] ∧ w ≠ [] ∧ status ∈ statusLines ∧ hasStatus w status = true :=
      ⟨_, str "HTTP/1.1 404 Not Found", rfl, by decide, by decide, by decide⟩
    by_cases hecho : HasPrefix req.Path (str "/echo/") = true
    · obtain ⟨seg, h1, _, _⟩ := Split_getLast req.Path 47
      exact ⟨_, _, handleConnection_echo proc conn req seg hparse hecho h1,
        (textPlain_status _ _).1, h200, (textPlain_status _ _).2⟩
    · have hecho' : HasPrefix req.Path (str "/echo/") = false := by simpa using hecho
      by_cases hua : HasPrefix req.Path (str "/user-agent") = true
      · exact ⟨_, _, handleConnection_user_agent proc conn req hparse hecho' hua,
          (textPlain_status _ _).1, h200, (textPlain_status _ _).2⟩
      · have hua' : HasPrefix req.Path (str "/user-agent") = false := by simpa using hua
        by_cases hfiles : HasPrefix req.Path (str "/files/") = true
        · have hargs2 : 2 < proc.Args.length := hargs req hparse hfiles
          obtain ⟨directory, hdir⟩ : ∃ d, proc.Args.get? 2 = some d :=
            ⟨proc.Args.get ⟨2, hargs2⟩, List.get?_eq_get hargs2⟩
          by_cases hget : req.Method = str "GET"
          · cases hread : proc.ReadFile (directory ++ TrimPrefix req.Path (str "/files/")) with
            | none =>
              rw [handleConnection_files_get_error proc conn req directory hparse hfiles hdir
                hget hread]
              exact h404
            | some data =>
              exact ⟨_, _, handleConnection_files_get proc conn req directory data hparse hfiles
                hdir hget hread, (fileResponse_status data).1, h200,
                (fileResponse_status data).2⟩
          · by_cases hpost : req.Method = str "POST"
            · rw [handleConnection_files_post proc conn req directory hparse hfiles hdir hpost]
              cases proc.WriteFile (directory ++ TrimPrefix req.Path (str "/files/")) req.Body with
              | true =>
                exact ⟨_, str "HTTP/1.1 201 Created", rfl, by decide, by decide, by decide⟩
              | false =>
                exact ⟨_, str "HTTP/1.1 500 Internal Server Error", rfl, by decide, by decide,
                  by decide⟩
            · rw [handleConnection_files_other proc conn req directory hparse hfiles hdir hget
                hpost]
              exact h404
        · have hfiles' : HasPrefix req.Path (str "/files/") = false := by simpa using hfiles
          rw [handleConnection_fallback proc conn req hparse hecho' hua' hfiles']
          unfold fallback
          by_cases hroot : req.Path = str "/"
          · rw [if_pos hroot]
            exact ⟨_, str "HTTP/1.1 200 OK", rfl, by decide, by decide, by decide⟩
          · rw [if_neg hroot]
            exact h404

/-- C14 (as amended): for every input byte stream on which `parseRequest` returns
(a request or an error) and every outcome of the file read or write, in a
process that was started with at least two arguments (so that `os.Args[2]`
exists) whenever the parsed path starts with `/files/`, `handleConnection` makes
exactly one write, of a non-empty response whose status line is one of `200 OK`,
`201 Created`, `404 Not Found`, `500 Internal Server Error` or
`400 Bad Request`. -/
theorem C14_exactly_one_response (proc : Process) (conn : List Nat)
    (hp : parseRequest proc conn ≠ .panic)
    (hargs : ∀ req, parseRequest proc conn = .ok req →
      HasPrefix req.Path (str "/files/") = true → 2 < proc.Args.length) :
    ∃ w status, handleConnection proc conn = .written [w] ∧ w ≠ [] ∧
      status ∈ statusLines ∧ hasStatus w status = true :=
  handleConnection_written proc conn hp hargs

/-- A process started without arguments answers `GET /echo/abc` by one write,
and a `GET` of a file that cannot be read is answered by one write by a process
started with a directory. -/
theorem C14_exactly_one_response_witness :
    (∃ w status,
      handleConnection bareProcess (str "GET /echo/abc HTTP/1.1\r\n\r\n") = .written [w] ∧
        w ≠ [] ∧ status ∈ statusLines ∧ hasStatus w status = true) ∧
    ∃ w status,
      handleConnection ⟨[str "server", str "--directory", str "/tmp/"], fun _ => none,
          fun _ _ => false, fun _ => true⟩ (str "GET /files/a HTTP/1.1\r\n\r\n") = .written [w] ∧
        w ≠ [] ∧ status ∈ statusLines ∧ hasStatus w status = true :=
  ⟨C14_exactly_one_response bareProcess (str "GET /echo/abc HTTP/1.1\r\n\r\n") (by decide)
      (by
        intro req h hf
        have h2 : parseRequest bareProcess (str "GET /echo/abc HTTP/1.1\r\n\r\n") =
            .ok (Request.mk (str "GET") (str "/echo/abc") (str "HTTP/1.1") [] []) := by decide
        rw [h2] at h
        cases h
        exact absurd hf (by decide)),
   C14_exactly_one_response
    ⟨[str "server", str "--directory", str "/tmp/"], fun _ => none, fun _ _ => false, fun _ => true⟩
    (str "GET /files/a HTTP/1.1\r\n\r\n") (by decide) (fun _ _ _ => by decide)⟩

/-- C14, counterexample to the claim as stated: a `POST` under `/files/` whose
file write fails is answered with `500 Internal Server Error`, a status outside
the four of the claim; a `POST` with `Content-Length: -1`, one with
`Content-Length: 281474976710657` (above the allocation ceiling), one whose
buffer of 2 bytes cannot be allocated, and a request under `/files/` to a
process started without arguments, end in a panic before any byte is written. -/
theorem C14_counterexample :
    handleConnection ⟨[str "server", str "--directory", str "/tmp/"], fun _ => none,
        fun _ _ => false, fun _ => true⟩ (str "POST /files/a HTTP/1.1\r\nContent-Length: 2\r\n\r\nhi") =
      .written [str "HTTP/1.1 500 Internal Server Error\r\n\r\n"] ∧
    handleConnection ⟨[str "server", str "--directory", str "/tmp/"], fun _ => none,
        fun _ _ => true, fun _ => true⟩ (str "POST /files/a HTTP/1.1\r\nContent-Length: -1\r\n\r\n") =
      .panic ∧
    handleConnection ⟨[str "server", str "--directory", str "/tmp/"], fun _ => none,
        fun _ _ => true, fun _ => true⟩
        (str "POST /files/a HTTP/1.1\r\nContent-Length: 281474976710657\r\n\r\n") = .panic ∧
    handleConnection ⟨[str "server", str "--directory", str "/tmp/"], fun _ => none,
        fun _ _ => true, fun _ => false⟩
        (str "POST /files/a HTTP/1.1\r\nContent-Length: 2\r\n\r\nhi") = .panic ∧
    handleConnection ⟨[str "server"], fun _ => none, fun _ _ => true, fun _ => true⟩
        (str "GET /files/a HTTP/1.1\r\n\r\n") = .panic := by
  decide

/-- C15 (what the code does): a `GET` under `/files/` of a file with content
`data` is answered with `Content-Length: len(data)`, a blank line, the bytes of
`data` and then four more bytes `\r\n\r\n`. -/
theorem C15_file_get_trailing_bytes (proc : Process) (conn : List Nat) (req : Request)
    (directory data : Str) (hok : parseRequest proc conn = .ok req)
    (hfiles : HasPrefix req.Path (str "/files/") = true)
    (hargs : proc.Args.get? 2 = some directory) (hget : req.Method = str "GET")
    (hread : proc.ReadFile (directory ++ TrimPrefix req.Path (str "/files/")) = some data) :
    handleConnection proc conn =
      .written [str "HTTP/1.1 200 OK\r\nContent-Type: application/octet-stream\r\nContent-Length: "
        ++ Itoa data.length ++ str "\r\n\r\n" ++ (data ++ str "\r\n\r\n")] := by
  rw [handleConnection_files_get proc conn req directory data hok hfiles hargs hget hread]
  simp only [List.append_assoc]

/-- The file `/tmp/a` with the two bytes `hi` is served with `Content-Length: 2`
and the six bytes `hi\r\n\r\n` after the blank line. -/
theorem C15_file_get_trailing_bytes_witness :
    handleConnection ⟨[str "server", str "--directory", str "/tmp/"],
        fun name => if name = str "/tmp/a" then some (str "hi") else none, fun _ _ => false, fun _ => true⟩
        (str "GET /files/a HTTP/1.1\r\n\r\n") =
      .written [str "HTTP/1.1 200 OK\r\nContent-Type: application/octet-stream\r\nContent-Length: 2\r\n\r\nhi\r\n\r\n"] :=
  C15_file_get_trailing_bytes ⟨[str "server", str "--directory", str "/tmp/"],
      fun name => if name = str "/tmp/a" then some (str "hi") else none, fun _ _ => false, fun _ => true⟩
    (str "GET /files/a HTTP/1.1\r\n\r\n")
    (Request.mk (str "GET") (str "/files/a") (str "HTTP/1.1") [] []) (str "/tmp/") (str "hi")
    (by decide) (by decide) (by decide) (by decide) (by decide)

/-- C16 (as amended): fallback routing.  For every successfully parsed request
whose path starts with none of `/echo/`, `/user-agent`, `/files/`, the response
is exactly `HTTP/1.1 200 OK` with a blank line if and only if the path is
exactly `/`, and exactly `HTTP/1.1 404 Not Found` with a blank line otherwise;
a request under `/files/` whose method is neither `GET` nor `POST` also gets
that 404 response when the process was started with at least two arguments
(`os.Args[2]` exists). -/
theorem C16_fallback_routing (proc : Process) (conn : List Nat) (req : Request)
    (hok : parseRequest proc conn = .ok req) :
    (HasPrefix req.Path (str "/echo/") = false →
      HasPrefix req.Path (str "/user-agent") = false →
      HasPrefix req.Path (str "/files/") = false →
        (handleConnection proc conn = .written [str "HTTP/1.1 200 OK\r\n\r\n"] ↔
          req.Path = str "/") ∧
        (req.Path ≠ str "/" →
          handleConnection proc conn = .written [str "HTTP/1.1 404 Not Found\r\n\r\n"])) ∧
    (HasPrefix req.Path (str "/files/") = true → req.Method ≠ str "GET" →
      req.Method ≠ str "POST" → 2 < proc.Args.length →
        handleConnection proc conn = .written [str "HTTP/1.1 404 Not Found\r\n\r\n"]) := by
  constructor
  · intro hecho hua hfiles
    rw [handleConnection_fallback proc conn req hok hecho hua hfiles]
    unfold fallback
    by_cases hroot : req.Path = str "/"
    · simp only [hroot, if_true, true_iff, ne_eq, not_true_eq_false, false_implies, and_true]
    · simp only [hroot, if_false, iff_false, ne_eq, not_false_eq_true, true_implies, and_true]
      decide
  · intro hfiles hget hpost hargs
    exact handleConnection_files_other proc conn req (proc.Args.get ⟨2, hargs⟩) hok hfiles
      (List.get?_eq_get hargs) hget hpost

/-- The path `/` gets `200 OK`, the path `/x` gets `404 Not Found`, and a
`DELETE` under `/files/` gets `404 Not Found`. -/
theorem C16_fallback_routing_witness :
    handleConnection bareProcess (str "GET / HTTP/1.1\r\n\r\n") =
        .written [str "HTTP/1.1 200 OK\r\n\r\n"] ∧
      handleConnection bareProcess (str "GET /x HTTP/1.1\r\n\r\n") =
        .written [str "HTTP/1.1 404 Not Found\r\n\r\n"] ∧
      handleConnection ⟨[str "server", str "--directory", str "/tmp/"], fun _ => none,
          fun _ _ => false, fun _ => true⟩ (str "DELETE /files/a HTTP/1.1\r\n\r\n") =
        .written [str "HTTP/1.1 404 Not Found\r\n\r\n"] :=
  ⟨((C16_fallback_routing bareProcess
        (str "GET / HTTP/1.1\r\n\r\n")
        (Request.mk (str "GET") (str "/") (str "HTTP/1.1") [] []) (by decide)).1
      (by decide) (by decide) (by decide)).1.mpr (by decide),
   ((C16_fallback_routing bareProcess
        (str "GET /x HTTP/1.1\r\n\r\n")
        (Request.mk (str "GET") (str "/x") (str "HTTP/1.1") [] []) (by decide)).1
      (by decide) (by decide) (by decide)).2 (by decide),
   (C16_fallback_routing ⟨[str "server", str "--directory", str "/tmp/"], fun _ => none,
        fun _ _ => false, fun _ => true⟩ (str "DELETE /files/a HTTP/1.1\r\n\r\n")
        (Request.mk (str "DELETE") (str "/files/a") (str "HTTP/1.1") [] []) (by decide)).2
      (by decide) (by decide) (by decide) (by decide)⟩

/-- C16, counterexample to the claim as stated: a `DELETE` under `/files/` sent
to a process started without arguments ends in the panic of `os.Args[2]`; no
404 is written. -/
theorem C16_counterexample :
    handleConnection ⟨[str "server"], fun _ => none, fun _ _ => false, fun _ => true⟩
      (str "DELETE /files/a HTTP/1.1\r\n\r\n") = .panic := by
  decide

/-! ## Lemmas: line terminators -/

theorem str_lf : str "\n" = [10] := by decide

/-- A carriage return before the newline does not change the trimmed line. -/
theorem TrimSpace_cr (l : Str) : TrimSpace ((l ++ [13]) ++ [10]) = TrimSpace (l ++ [10]) := by
  rw [TrimSpace_append_enc _ [10] (by decide), TrimSpace_append_enc _ [13] (by decide),
    TrimSpace_append_enc _ [10] (by decide)]

theorem headersOf_cr_aux (lines : List Str) (h : HeaderMap) :
    (lines.map (fun l => l ++ [13])).foldl
        (fun m l => storeHeader m (TrimSpace (l ++ [10]))) h =
      lines.foldl (fun m l => storeHeader m (TrimSpace (l ++ [10]))) h := by
  induction lines generalizing h with
  | nil => rfl
  | cons l ls ih =>
    simp only [List.map_cons, List.foldl_cons]
    rw [TrimSpace_cr, ih]

theorem headersOf_cr (lines : List Str) :
    headersOf (lines.map (fun l => l ++ [13])) = headersOf lines :=
  headersOf_cr_aux lines []

theorem HeaderLines_cr (lines : List Str) (hl : HeaderLines lines) :
    HeaderLines (lines.map (fun l => l ++ [13])) := by
  intro l hmem
  obtain ⟨x, hx, rfl⟩ := List.mem_map.mp hmem
  obtain ⟨h1, h2⟩ := hl x hx
  constructor
  · simp [h1]
  · rw [TrimSpace_cr]
    exact h2

/-- Line-ending independence on streams of lines: a carriage return at the end
of every line, the blank line included, does not change what the parser
returns nor what it leaves unread. -/
theorem parseRequestReader_cr {proc : Process} (first : Str) (lines : List Str) (rest : Str)
    (h1 : 10 ∉ first) (hl : HeaderLines lines) :
    parseRequestReader proc (stream (first ++ [13]) (lines.map (fun l => l ++ [13])) [13] rest) =
      parseRequestReader proc (stream first lines [] rest) := by
  have h1' : 10 ∉ first ++ [13] := by simp [h1]
  rw [parseRequestReader_stream _ _ _ _ h1' (HeaderLines_cr lines hl) blank_cr,
    parseRequestReader_stream _ _ _ _ h1 hl ⟨by decide, by decide⟩,
    TrimSpace_cr, headersOf_cr]

theorem headerLinesLF_eq (pairs : List (Str × Str)) :
    headerLinesLF pairs = block (pairs.map (fun p => p.1 ++ 58 :: 32 :: p.2)) := by
  induction pairs with
  | nil => rfl
  | cons p ps ih =>
    simp only [headerLinesLF, List.map_cons, block, headerLineLF, ih, str_colon_space, str_lf]
    simp

theorem serializeLF_eq (m p v : Str) (pairs : List (Str × Str)) (rest : Str) :
    serializeLF m p v pairs ++ rest =
      stream (m ++ 32 :: (p ++ 32 :: v)) (pairs.map (fun p => p.1 ++ 58 :: 32 :: p.2)) []
        rest := by
  simp [serializeLF, stream, headerLinesLF_eq, str_space, str_lf]

theorem serialize_eq_cr (m p v : Str) (pairs : List (Str × Str)) (rest : Str) :
    serialize m p v pairs ++ rest =
      stream ((m ++ 32 :: (p ++ 32 :: v)) ++ [13])
        ((pairs.map (fun p => p.1 ++ 58 :: 32 :: p.2)).map (fun l => l ++ [13])) [13] rest := by
  rw [serialize_eq, List.map_map]
  have hf : ((fun l : Str => l ++ [13]) ∘ fun p : Str × Str => p.1 ++ 58 :: 32 :: p.2) =
      fun p : Str × Str => p.1 ++ 58 :: 32 :: (p.2 ++ [13]) := by
    funext q
    simp
  rw [hf]
  simp

theorem pairLines_HeaderLines (pairs : List (Str × Str))
    (hh : ∀ q ∈ pairs, 10 ∉ q.1 ∧ 10 ∉ q.2) :
    HeaderLines (pairs.map (fun p => p.1 ++ 58 :: 32 :: p.2)) := by
  intro l hmem
  obtain ⟨q, hq, rfl⟩ := List.mem_map.mp hmem
  obtain ⟨h1, h2⟩ := hh q hq
  constructor
  · simp [h1, h2]
  · have : (q.1 ++ 58 :: 32 :: q.2) ++ [10] = q.1 ++ 58 :: (32 :: q.2 ++ [10]) := by simp
    rw [this]
    exact TrimSpace_colon_ne_nil _ _

/-- The two serialisations of a request head, followed by the same bytes, give
the same result. -/
theorem parseRequestReader_serialize_LF {proc : Process} (m p v : Str) (pairs : List (Str × Str))
    (rest : Str)
    (hm : 10 ∉ m) (hp : 10 ∉ p) (hv : 10 ∉ v) (hh : ∀ q ∈ pairs, 10 ∉ q.1 ∧ 10 ∉ q.2) :
    parseRequestReader proc (serialize m p v pairs ++ rest) =
      parseRequestReader proc (serializeLF m p v pairs ++ rest) := by
  have h1 : 10 ∉ m ++ 32 :: (p ++ 32 :: v) := by simp [hm, hp, hv]
  rw [serialize_eq_cr, serializeLF_eq,
    parseRequestReader_cr _ _ rest h1 (pairLines_HeaderLines pairs hh)]

/-! ## Lemmas: the bytes of the parsed fields come from the lines -/

theorem Split_mem_sub (s : Str) (sep : Nat) :
    ∀ f ∈ Split s sep, ∀ x ∈ f, x ∈ s := by
  induction s with
  | nil =>
    intro f hf x hx
    simp [Split] at hf
    subst hf
    exact hx
  | cons c t ih =>
    intro f hf x hx
    unfold Split at hf
    by_cases hc : c = sep
    · rw [if_pos hc] at hf
      rcases List.mem_cons.mp hf with h | h
      · subst h
        simp at hx
      · exact List.mem_cons_of_mem _ (ih f h x hx)
    · rw [if_neg hc] at hf
      cases hS : Split t sep with
      | nil => exact absurd hS (Split_ne_nil t sep)
      | cons a r =>
        rw [hS] at hf ih
        rcases List.mem_cons.mp hf with h | h
        · subst h
          rcases List.mem_cons.mp hx with h2 | h2
          · rw [h2]
            exact List.mem_cons_self _ _
          · exact List.mem_cons_of_mem _ (ih a (List.mem_cons_self _ _) x h2)
        · exact List.mem_cons_of_mem _ (ih f (List.mem_cons_of_mem _ h) x hx)

theorem storeHeader_no_byte (c : Nat) (h : HeaderMap) (l : Str) (hc : c ∉ l)
    (hh : ∀ e ∈ h, c ∉ e.1 ∧ c ∉ e.2) :
    ∀ e ∈ storeHeader h (TrimSpace (l ++ [10])), c ∉ e.1 ∧ c ∉ e.2 := by
  rw [storeHeader_line]
  cases hf : headerField l with
  | none => exact hh
  | some q =>
    obtain ⟨name, value⟩ := q
    simp only
    unfold headerField at hf
    cases hcut : cut l 58 with
    | none => simp [hcut] at hf
    | some ab =>
      obtain ⟨a, b⟩ := ab
      simp only [hcut, Option.some.injEq, Prod.mk.injEq] at hf
      obtain ⟨e1, e2⟩ := hf
      obtain ⟨hl, _⟩ := cut_some l 58 a b hcut
      have ha : c ∉ a := fun hx => hc (by rw [hl]; simp [hx])
      have hb : c ∉ b := fun hx => hc (by rw [hl]; simp [hx])
      intro e he
      unfold HeaderMap.assign at he
      rcases List.mem_cons.mp he with h1 | h1
      · rw [h1, ← e1, ← e2]
        exact ⟨fun hx => ha (TrimSpace_sub a c hx), fun hx => hb (TrimSpace_sub b c hx)⟩
      · exact hh e (List.mem_of_mem_filter h1)

theorem headersOf_no_byte (c : Nat) (lines : List Str) (hl : ∀ l ∈ lines, c ∉ l) :
    ∀ e ∈ headersOf lines, c ∉ e.1 ∧ c ∉ e.2 := by
  unfold headersOf
  have key : ∀ (ls : List Str) (h : HeaderMap), (∀ l ∈ ls, c ∉ l) →
      (∀ e ∈ h, c ∉ e.1 ∧ c ∉ e.2) →
      ∀ e ∈ ls.foldl (fun m l => storeHeader m (TrimSpace (l ++ [10]))) h,
        c ∉ e.1 ∧ c ∉ e.2 := by
    intro ls
    induction ls with
    | nil => intro h _ hh; exact hh
    | cons l t ih =>
      intro h hls hh
      simp only [List.foldl_cons]
      exact ih _ (fun x hx => hls x (List.mem_cons_of_mem _ hx))
        (storeHeader_no_byte c h l (hls l (List.mem_cons_self _ _)) hh)
  exact key lines [] hl (by simp)

/-- A byte other than the newline that occurs in no line occurs in no field of
the parsed request. -/
theorem parseRequest_no_byte {proc : Process} (c : Nat) (first : Str) (lines : List Str)
    (blank rest : Str)
    (req : Request) (h1 : 10 ∉ first) (hl : HeaderLines lines) (hb : BlankLine blank)
    (hc1 : c ∉ first) (hc : c ≠ 10) (hcl : ∀ l ∈ lines, c ∉ l)
    (hok : parseRequest proc (stream first lines blank rest) = .ok req) :
    c ∉ req.Method ∧ c ∉ req.Path ∧ c ∉ req.Version ∧
      ∀ e ∈ req.Headers, c ∉ e.1 ∧ c ∉ e.2 := by
  obtain ⟨r, hr⟩ := (parseRequest_ok _ req).mp hok
  rw [parseRequestReader_stream first lines blank rest h1 hl hb] at hr
  rcases hS : Split (TrimSpace (first ++ [10])) 32 with _ | ⟨m, _ | ⟨p, _ | ⟨v, _ | ⟨d, t⟩⟩⟩⟩
  · simp [hS] at hr
  · simp [hS] at hr
  · simp [hS] at hr
  · simp only [hS] at hr
    obtain ⟨em, ep, ev, eh, _⟩ := readBody_ok m p v _ rest req r hr
    have hsub : ∀ f ∈ [m, p, v], c ∉ f := by
      intro f hf hx
      rw [← hS] at hf
      have h2 := TrimSpace_sub _ c (Split_mem_sub _ 32 f hf c hx)
      rcases List.mem_append.mp h2 with h3 | h3
      · exact hc1 h3
      · simp at h3
        exact hc h3
    rw [em, ep, ev, eh]
    exact ⟨hsub m (by simp), hsub p (by simp), hsub v (by simp), headersOf_no_byte c lines hcl⟩
  · simp [hS] at hr

/-- C17 (as amended): line-ending independence.  For every request line and
header block whose tokens, header names and header values contain no newline
(in particular for those that also have no white space at their edges), the
input serialised with `\n` line terminators and the input serialised with `\r\n`
line terminators, followed by the same body bytes, give the same result of
`parseRequest`, hence equal requests; when the tokens, names and values contain
no `\r`, no field of the request parsed from the `\r\n` form contains a `\r`;
and when they are well formed (no white space at the edges of names and values,
none in the tokens), the parsed method, path, version and headers are exactly
the given ones, so that a `\r` in a parsed field is one the name or value
itself contains and never one of a line terminator. -/
theorem C17_line_ending_independence (proc : Process) (m p v : Str) (pairs : List (Str × Str))
    (body : Str)
    (hm : 10 ∉ m) (hp : 10 ∉ p) (hv : 10 ∉ v) (hh : ∀ q ∈ pairs, 10 ∉ q.1 ∧ 10 ∉ q.2) :
    parseRequest proc (serializeLF m p v pairs ++ body) =
        parseRequest proc (serialize m p v pairs ++ body) ∧
      (13 ∉ m → 13 ∉ p → 13 ∉ v → (∀ q ∈ pairs, 13 ∉ q.1 ∧ 13 ∉ q.2) →
        ∀ req, parseRequest proc (serialize m p v pairs ++ body) = .ok req →
          13 ∉ req.Method ∧ 13 ∉ req.Path ∧ 13 ∉ req.Version ∧
            ∀ e ∈ req.Headers, 13 ∉ e.1 ∧ 13 ∉ e.2) ∧
      (WellFormedToken m → WellFormedToken p → WellFormedToken v →
        (∀ q ∈ pairs, WellFormedHeader q) →
        ∀ req, parseRequest proc (serialize m p v pairs ++ body) = .ok req →
          req.Method = m ∧ req.Path = p ∧ req.Version = v ∧
            req.Headers = mapOfPairs pairs) := by
  have heq : parseRequest proc (serializeLF m p v pairs ++ body) =
      parseRequest proc (serialize m p v pairs ++ body) := by
    unfold parseRequest
    rw [parseRequestReader_serialize_LF m p v pairs body hm hp hv hh]
  refine ⟨heq, ?_, ?_⟩
  · intro cm cp cv ch req hok
    rw [← heq, serializeLF_eq] at hok
    have h1 : 10 ∉ m ++ 32 :: (p ++ 32 :: v) := by simp [hm, hp, hv]
    have hc1 : 13 ∉ m ++ 32 :: (p ++ 32 :: v) := by simp [cm, cp, cv]
    have hcl : ∀ l ∈ pairs.map (fun p => p.1 ++ 58 :: 32 :: p.2), 13 ∉ l := by
      intro l hmem
      obtain ⟨q, hq, rfl⟩ := List.mem_map.mp hmem
      obtain ⟨c1, c2⟩ := ch q hq
      simp [c1, c2]
    exact parseRequest_no_byte 13 _ _ [] body req h1 (pairLines_HeaderLines pairs hh)
      ⟨by decide, by decide⟩ hc1 (by decide) hcl hok
  · intro wm wp wv wh req hok
    obtain ⟨r, hr⟩ := (parseRequest_ok _ req).mp hok
    rw [parseRequestReader_serialize m p v pairs body wm wp wv wh] at hr
    obtain ⟨em, ep, ev, eh, _⟩ := readBody_ok m p v _ body req r hr
    exact ⟨em, ep, ev, eh⟩

/-- A `POST` with one header and the body `hello` parses to the same request
with `\n` and with `\r\n` line terminators. -/
theorem C17_line_ending_independence_witness :
    parseRequest bareProcess (str "POST /f HTTP/1.1\nContent-Length: 5\n\nhello") =
        parseRequest bareProcess (str "POST /f HTTP/1.1\r\nContent-Length: 5\r\n\r\nhello") ∧
      parseRequest bareProcess (str "POST /f HTTP/1.1\r\nContent-Length: 5\r\n\r\nhello") =
        .ok { Method := str "POST", Path := str "/f", Version := str "HTTP/1.1",
              Headers := [(str "Content-Length", str "5")], Body := str "hello" } :=
  ⟨(C17_line_ending_independence bareProcess (str "POST") (str "/f") (str "HTTP/1.1")
    [(str "Content-Length", str "5")] (str "hello") (by decide) (by decide) (by decide)
    (by decide)).1, by decide⟩

/-- C17, counterexample to the claim as stated: the tokens `GET`, `/`,
`HTTP/1.1` and the header `X` with the value `a\rb` have no white space at their
edges and no newline; the request parses, equally with `\r\n` and with `\n` line
terminators, and the `\r` of the value remains in the parsed header. -/
theorem C17_counterexample :
    WellFormedToken (str "GET") ∧ WellFormedToken (str "/") ∧ WellFormedToken (str "HTTP/1.1") ∧
      WellFormedHeader (str "X", str "a\rb") ∧
      parseRequest bareProcess (serialize (str "GET") (str "/") (str "HTTP/1.1")
          [(str "X", str "a\rb")]) =
        .ok { Method := str "GET", Path := str "/", Version := str "HTTP/1.1",
              Headers := [(str "X", str "a\rb")], Body := [] } ∧
      parseRequest bareProcess (serializeLF (str "GET") (str "/") (str "HTTP/1.1")
          [(str "X", str "a\rb")]) =
        .ok { Method := str "GET", Path := str "/", Version := str "HTTP/1.1",
              Headers := [(str "X", str "a\rb")], Body := [] } ∧
      13 ∈ str "a\rb" := by
  decide

end DiyServer
